import Mathlib

/-!
# Distributed file service: chunked transfer and watch-sync mapping

A shallow embedding of `server/main.go` and `client/main.go`.

* A Go `string` and a Go `[]byte` are both byte sequences; they are written here
  as `List Char`, one `Char` per byte, so `[]byte(name)` and `string(data)` are
  the identity.
* The operating system is a small file-system model (`FS`): a table from
  canonical path names to regular files and directories, reached by walking a
  path string component by component as the kernel does.
* gRPC is a transport model: a client-streaming call hands the server the
  payloads that were sent, a server-streaming call hands the client the chunks
  the handler sent followed by end-of-stream or the handler's error, and a
  unary call returns the handler's response or an error and no response.
* Client and server run on separate file systems (`World.client`,
  `World.server`).
* Loops that read a file in windows carry a fuel argument; `none` means the
  loop is still running when the fuel is spent.
-/

set_option autoImplicit false

deriving instance DecidableEq for Except

namespace FileService

/-! ## Bytes, strings and errors -/

/-- A byte sequence (`[]byte`), also the representation of a Go `string`. -/
abbrev Bytes := List Char

/-- A path or file name (a Go `string`). -/
abbrev Path := List Char

/-- Error values that the operating system, `io` and the transport produce. -/
inductive Err
  /-- The value `io.EOF`. -/
  | EOF
  /-- No such file or directory (`os.IsNotExist` holds). -/
  | notExist
  /-- The operation needs a regular file and found a directory. -/
  | isDir
  /-- A path component that must be a directory is not one. -/
  | notDir
  /-- The target already exists as a directory. -/
  | exist
  /-- The directory is not empty. -/
  | notEmpty
  /-- Invalid argument (`os.ErrInvalid`, `EINVAL`). -/
  | invalid
  /-- A name or a path is too long (`ENAMETOOLONG`). -/
  | nameTooLong
  /-- The transport could not deliver (connection or stream broken). -/
  | transport
  /-- A status error: the remote handler returned an error. -/
  | status
  deriving DecidableEq, Repr

/-- The test `os.IsNotExist(err)`. -/
def IsNotExist (e : Err) : Bool :=
  match e with
  | .notExist => true
  | _ => false

/-! ## `strings.Split` and `path/filepath` -/

/-- The call `strings.Split(s, "/")`: the substrings of `s` between slashes. -/
def Split : List Char → List (List Char)
  | [] => [[]]
  | c :: cs =>
    if c = '/' then [] :: Split cs
    else
      match Split cs with
      | [] => [[c]]
      | x :: xs => (c :: x) :: xs

/-- The expression `lists[len(lists)-1]`. -/
def lastOf (lists : List (List Char)) : List Char :=
  lists.getLastD []

/-- The file name `handleEvent` derives from an event path: the last element
of `strings.Split(event.Name, "/")`. -/
def baseName (p : Path) : Path :=
  lastOf (Split p)

/-- The backtracking step of `filepath.Clean` on the reversed output buffer:
`out.w--` and then `out.w--` again while `out.w > dotdot` and the byte at
`out.w` is not a separator. -/
def backtrackRev : List Char → Nat → List Char
  | [], _ => []
  | c :: rest, dotdot =>
    if rest.length > dotdot ∧ c ≠ '/' then backtrackRev rest dotdot else rest

/-- Backtracking on the output buffer in reading order. -/
def backtrack (out : List Char) (dotdot : Nat) : List Char :=
  (backtrackRev out.reverse dotdot).reverse

/-- The main loop of `filepath.Clean` (Unix): the unread input, the output
buffer written so far (its length is `out.w`) and the index `dotdot`. Every
round consumes input, so the length of the path is enough fuel. -/
def cleanLoop (rooted : Bool) : Nat → List Char → List Char → Nat → List Char
  | 0, _, out, _ => out
  | _ + 1, [], out, _ => out
  | fuel + 1, c :: cs, out, dotdot =>
    if c = '/' then
      cleanLoop rooted fuel cs out dotdot
    else if c = '.' ∧ (cs = [] ∨ cs.head? = some '/') then
      cleanLoop rooted fuel cs out dotdot
    else if c = '.' ∧ cs.head? = some '.' ∧ (cs.tail = [] ∨ cs.tail.head? = some '/') then
      if out.length > dotdot then
        cleanLoop rooted fuel cs.tail (backtrack out dotdot) dotdot
      else if !rooted then
        let out1 := (if out.length > 0 then out ++ ['/'] else out) ++ ['.', '.']
        cleanLoop rooted fuel cs.tail out1 out1.length
      else
        cleanLoop rooted fuel cs.tail out dotdot
    else
      let out1 :=
        if (rooted ∧ out.length ≠ 1) ∨ (!rooted ∧ out.length ≠ 0) then out ++ ['/'] else out
      cleanLoop rooted fuel ((c :: cs).dropWhile (· ≠ '/'))
        (out1 ++ (c :: cs).takeWhile (· ≠ '/')) dotdot

/-- The function `filepath.Clean` of the Go standard library (Unix). -/
def Clean (path : Path) : Path :=
  if path = [] then ['.']
  else
    let rooted : Bool := path.head? = some '/'
    let out :=
      if rooted then cleanLoop true path.length path.tail ['/'] 1
      else cleanLoop false path.length path [] 0
    if out = [] then ['.'] else out

/-- The call `strings.Join(elems, "/")`. -/
def joinSep : List Path → Path
  | [] => []
  | [e] => e
  | e :: es => e ++ '/' :: joinSep es

/-- The function `filepath.Join` of the Go standard library (Unix): leading
empty elements are dropped, the rest is joined with slashes and cleaned. -/
def Join : List Path → Path
  | [] => []
  | e :: es => if e ≠ [] then Clean (joinSep (e :: es)) else Join es

/-- The constant `uploadsFolder`. -/
def uploadsFolder : Path := "uploads".toList

/-- The constant `downloadsFolder`. -/
def downloadsFolder : Path := "downloads".toList

/-- The constant `bufferSize`. The code does not use it: every read buffer is
made with the literal size (`make([]byte, 1024)`). -/
def bufferSize : Nat := 1024

/-! ## The file-system model -/

/-- What a canonical path names. -/
inductive Node
  | file (content : Bytes)
  | dir
  deriving DecidableEq, Repr

/-- A file system: a table from canonical path names to what they name, every
entry listed once. A canonical name is relative to the working directory
(`downloads/a.txt`, `../b`) or starts at the root (`/tmp/c`). The working
directory `.`, the directories above it (`..`, `../..`) and the root `/`
always exist and are not listed. There are no symbolic or hard links, every
entry is a regular file or a directory, and nothing is refused for lack of
permission. -/
abbrev FS := List (Path × Node)

/-- Whether the path is written with a trailing slash, which only a directory
satisfies. -/
def trailingSep (p : Path) : Bool :=
  p.getLast? = some '/' ∧ Clean p ≠ ['/']

/-- The directory part of a canonical path. -/
def parentDir (key : Path) : Path :=
  match (Split key).dropLast with
  | [] => ['.']
  | [[]] => ['/']
  | ds => joinSep ds

/-- The canonical paths that always name a directory: the working directory,
the directories above it, and the root. -/
def implicitDir (key : Path) : Bool :=
  key = ['.'] ∨ key = ['/'] ∨ (Split key).all (· = ['.', '.'])

/-- The directory that the component `..` leads to. -/
def upDir (key : Path) : Path :=
  if key = ['.'] then ['.', '.']
  else if (Split key).all (· = ['.', '.']) then key ++ ['/', '.', '.']
  else parentDir key

/-- The entry `name` of the directory `dir`. -/
def childOf (dir name : Path) : Path :=
  if dir = ['.'] then name
  else if dir = ['/'] then '/' :: name
  else dir ++ '/' :: name

/-- One step of the kernel's path walk: from the directory `cur` through the
component `c`. -/
def stepInto (cur c : Path) : Path :=
  if c = ['.'] then cur
  else if c = ['.', '.'] then upDir cur
  else childOf cur c

/-- The components the kernel walks: the parts of the path between slashes,
empty parts dropped. -/
def components (p : Path) : List Path :=
  (Split p).filter (· ≠ [])

/-- The longest component Linux accepts (`NAME_MAX`). -/
def nameMax : Nat := 255

/-- The longest path Linux accepts (`PATH_MAX` less the terminating zero). -/
def pathMax : Nat := 4095

namespace FS

/-- The entry stored under a canonical path. -/
def lookup (fs : FS) (key : Path) : Option Node :=
  match fs with
  | [] => none
  | (k, n) :: rest => if k = key then some n else lookup rest key

/-- The node a canonical path names. -/
def node (fs : FS) (key : Path) : Option Node :=
  if implicitDir key then some Node.dir else fs.lookup key

/-- Drop the binding of a canonical path. -/
def del (fs : FS) (key : Path) : FS :=
  match fs with
  | [] => []
  | (k, n) :: rest => if k = key then del rest key else (k, n) :: del rest key

/-- Bind a canonical path to a node, replacing an earlier binding. -/
def put (fs : FS) (key : Path) (n : Node) : FS :=
  (key, n) :: fs.del key

/-- Whether a directory has entries below it. -/
def hasChildren (fs : FS) (key : Path) : Bool :=
  fs.any (fun e => (key ++ ['/']).isPrefixOf e.1)

/-- The kernel's walk along the components of a path, from the directory
`cur`: every component but the last must lead to a directory, a missing one is
`ENOENT`, a regular file is `ENOTDIR`. The result is the canonical path of the
last component, which need not exist. -/
def walkFrom (fs : FS) : Path → List Path → Except Err Path
  | cur, [] => .ok cur
  | cur, c :: rest =>
    if rest = [] then .ok (stepInto cur c)
    else
      match fs.node (stepInto cur c) with
      | some .dir => walkFrom fs (stepInto cur c) rest
      | some (.file _) => .error .notDir
      | none => .error .notExist

/-- Path resolution, as the operating system does it for the path string it is
handed: the empty path names nothing, a zero byte is refused, over-long names
are refused, and every other path is walked component by component from the
root or from the working directory. -/
def walk (fs : FS) (p : Path) : Except Err Path :=
  if p = [] then .error .notExist
  else if Char.ofNat 0 ∈ p then .error .invalid
  else if p.length > pathMax ∨ (components p).any (fun c => c.length > nameMax) then
    .error .nameTooLong
  else walkFrom fs (if p.head? = some '/' then ['/'] else ['.']) (components p)

/-- The call `os.Stat(p)`. -/
def Stat (fs : FS) (p : Path) : Except Err Node :=
  match fs.walk p with
  | .error e => .error e
  | .ok key =>
    match fs.node key with
    | none => .error .notExist
    | some (.file c) => if trailingSep p then .error .notDir else .ok (.file c)
    | some .dir => .ok .dir

/-- The call `os.Create(p)`: create or truncate a regular file. The result is
the open file, named by its canonical path. -/
def Create (fs : FS) (p : Path) : Except Err (Path × FS) :=
  match fs.walk p with
  | .error e => .error e
  | .ok key =>
    if trailingSep p then .error .isDir
    else
      match fs.node key with
      | some .dir => .error .isDir
      | _ => .ok (key, fs.put key (.file []))

/-- The call `file.Write(data)` on a file opened by `Create`: append at the
end of what was written so far. -/
def Write (fs : FS) (key : Path) (data : Bytes) : Except Err FS :=
  match fs.node key with
  | some (.file c) => .ok (fs.put key (.file (c ++ data)))
  | _ => .error .invalid

/-- The call `os.Remove(p)`. -/
def Remove (fs : FS) (p : Path) : Except Err FS :=
  match fs.walk p with
  | .error e => .error e
  | .ok key =>
    if implicitDir key then .error .invalid
    else
      match fs.lookup key with
      | none => .error .notExist
      | some (.file _) => if trailingSep p then .error .notDir else .ok (fs.del key)
      | some .dir => if fs.hasChildren key then .error .notEmpty else .ok (fs.del key)

/-- Move a directory and everything below it to a new canonical path. -/
def moveTree (fs : FS) (old new : Path) : FS :=
  fs.map (fun e =>
    if e.1 = old then (new, e.2)
    else if (old ++ ['/']).isPrefixOf e.1 then (new ++ e.1.drop old.length, e.2)
    else e)

/-- The system call `rename(oldpath, newpath)`. -/
def renameat (fs : FS) (oldpath newpath : Path) : Except Err FS :=
  match fs.walk oldpath with
  | .error e => .error e
  | .ok old =>
    match fs.node old with
    | none => .error .notExist
    | some n =>
      match fs.walk newpath with
      | .error e => .error e
      | .ok new =>
        if implicitDir old ∨ implicitDir new then .error .invalid
        else if old = new then .ok fs
        else
          match n with
          | .file c =>
            if trailingSep oldpath ∨ trailingSep newpath then .error .notDir
            else if fs.node new = some .dir then .error .isDir
            else .ok ((fs.del old).put new (.file c))
          | .dir =>
            if (old ++ ['/']).isPrefixOf new then .error .invalid
            else
              match fs.node new with
              | some (.file _) => .error .notDir
              | some .dir =>
                if fs.hasChildren new then .error .notEmpty
                else .ok ((fs.del new).moveTree old new)
              | none => .ok (fs.moveTree old new)

/-- The call `os.Rename(oldpath, newpath)`: when the new path is an existing
directory Go answers with the error of the old path, or with `EEXIST` when the
two names are written alike or name different files; otherwise the system call
decides. -/
def Rename (fs : FS) (oldpath newpath : Path) : Except Err FS :=
  match fs.Stat newpath with
  | .ok .dir =>
    match fs.Stat oldpath with
    | .error e => .error e
    | .ok _ =>
      if oldpath = newpath ∨ fs.walk oldpath ≠ fs.walk newpath then .error .exist
      else fs.renameat oldpath newpath
  | _ => fs.renameat oldpath newpath

end FS

/-- An `*os.File` opened for reading. -/
inductive File
  /-- The nil pointer left behind by a failed `os.Open`. -/
  | nil
  /-- An open directory. -/
  | dir
  /-- An open regular file and its unread bytes. -/
  | reg (rest : Bytes)
  deriving DecidableEq, Repr

/-- The call `os.Open(p)`. -/
def FS.Open (fs : FS) (p : Path) : Except Err File :=
  match fs.Stat p with
  | .error e => .error e
  | .ok (.file c) => .ok (.reg c)
  | .ok .dir => .ok .dir

/-- The call `file.Read(buffer)` with a buffer of `size` bytes: the bytes
read (`buffer[:n]`), the error, and the file afterwards. A read of a regular
file fills the buffer unless fewer bytes are left, and reports `io.EOF` once
nothing is left; a nil file and a directory report an error on every read. -/
def File.Read (f : File) (size : Nat) : (Bytes × Option Err) × File :=
  match f with
  | .nil => (([], some .invalid), .nil)
  | .dir => (([], some .isDir), .dir)
  | .reg [] => (([], some .EOF), .reg [])
  | .reg (b :: bs) => (((b :: bs).take size, none), .reg ((b :: bs).drop size))

/-! ## Messages and the transport -/

/-- The message `pb.FileRequest`. -/
structure FileRequest where
  FileName : Path
  deriving DecidableEq, Repr

/-- The message `pb.RenameRequest`. -/
structure RenameRequest where
  OldFileName : Path
  NewFileName : Path
  deriving DecidableEq, Repr

/-- The message `pb.Response`. -/
structure Response where
  Message : List Char
  deriving DecidableEq, Repr

/-- What the network does to a run: whether opening a stream fails, which
calls of `Send` on a stream fail (by position, absent means success), and
whether a unary call fails to reach the server. -/
structure Env where
  streamFails : Bool
  sendFails : List Bool
  callFails : Bool
  deriving DecidableEq, Repr

/-- A network on which nothing fails. -/
def reliable : Env :=
  { streamFails := false, sendFails := [], callFails := false }

/-- The receiving end of an upload stream (`pb.FileService_UploadFileServer`):
the messages still to be received, then `io.EOF`, or a transport error when the
stream broke. -/
structure ServerStream where
  msgs : List Bytes
  broken : Bool
  deriving DecidableEq, Repr

/-- What the server receives of the payloads handed to `Send`: everything up
to the first failed `Send`, after which the stream is broken. -/
def wire : List Bool → List Bytes → ServerStream
  | _, [] => { msgs := [], broken := false }
  | [], m :: ms => { msgs := m :: ms, broken := false }
  | f :: fs, m :: ms =>
    if f then { msgs := [], broken := true }
    else { msgs := m :: (wire fs ms).msgs, broken := (wire fs ms).broken }

/-- The sending end of a stream: the payloads handed to `Send` so far, in
order. -/
structure SendStream where
  sent : List Bytes
  deriving DecidableEq, Repr

/-- The call `stream.Send(&pb.FileChunk{Data: data})`. -/
def SendStream.Send (env : Env) (s : SendStream) (data : Bytes) : Option Err × SendStream :=
  (if env.sendFails.getD s.sent.length false then some Err.transport else none,
   { sent := s.sent ++ [data] })

/-! ## The server (`server/main.go`) -/

namespace server

/-- Helper function to receive the file name from the client. -/
def receiveFileName (stream : ServerStream) : Except Err Path × ServerStream :=
  match stream.msgs with
  | [] => (.error (if stream.broken then Err.transport else Err.EOF), stream)
  | req :: rest => (.ok req, { stream with msgs := rest })

/-- The receive loop of `receiveFile`: every message is written to the open
file until `Recv` reports `io.EOF`. -/
def receiveLoop (broken : Bool) (file : Path) : List Bytes → FS → Option Err × FS
  | [], fs => (if broken then some Err.transport else none, fs)
  | data :: rest, fs =>
    match fs.Write file data with
    | .error e => (some e, fs)
    | .ok fs1 => receiveLoop broken file rest fs1

/-- Helper function to receive the file data from the client and save it to
the server. -/
def receiveFile (stream : ServerStream) (fs : FS) (filePath : Path) : Option Err × FS :=
  match fs.Create filePath with
  | .error e => (some e, fs)
  | .ok (file, fs1) => receiveLoop stream.broken file stream.msgs fs1

/-- The handler `UploadFile`: the upload operation. -/
def UploadFile (fs : FS) (stream : ServerStream) : Option Err × FS :=
  match receiveFileName stream with
  | (.error e, _) => (some e, fs)
  | (.ok fileName, stream1) =>
    let filePath := Join [uploadsFolder, fileName]
    receiveFile stream1 fs filePath

/-- The read-and-send loop of `sendFile`. -/
def sendLoop (env : Env) : Nat → File → SendStream → Option (Option Err × SendStream)
  | 0, _, _ => none
  | fuel + 1, file, stream =>
    match file.Read 1024 with
    | ((_, some .EOF), _) => some (none, stream)
    | ((_, some e), _) => some (some e, stream)
    | ((data, none), file1) =>
      match stream.Send env data with
      | (some e, stream1) => some (some e, stream1)
      | (none, stream1) => sendLoop env fuel file1 stream1

/-- Helper function to send the file data to the client. -/
def sendFile (env : Env) (fs : FS) (filePath : Path) (stream : SendStream) (fuel : Nat) :
    Option (Option Err × SendStream) :=
  match fs.Open filePath with
  | .error e => some (some e, stream)
  | .ok file => sendLoop env fuel file stream

/-- The handler `DownloadFile`: the download operation. The result is the
handler's return value and the chunks it sent. -/
def DownloadFile (env : Env) (fs : FS) (req : FileRequest) (fuel : Nat) :
    Option (Option Err × SendStream) :=
  let filePath := Join [uploadsFolder, req.FileName]
  match fs.Stat filePath with
  | .error e => some (some e, { sent := [] })
  | .ok _ => sendFile env fs filePath { sent := [] } fuel

/-- Helper function to delete a file from the server. -/
def deleteFile (fs : FS) (filePath : Path) : Except Err FS :=
  fs.Remove filePath

/-- Helper function to rename a file on the server. -/
def renameFile (fs : FS) (oldFilePath newFilePath : Path) : Except Err FS :=
  fs.Rename oldFilePath newFilePath

/-- The handler `DeleteFile`: the delete operation. -/
def DeleteFile (fs : FS) (req : FileRequest) : Except Err Response × FS :=
  let filePath := Join [uploadsFolder, req.FileName]
  match deleteFile fs filePath with
  | .error e => (.error e, fs)
  | .ok fs1 =>
    (.ok { Message := "File ".toList ++ req.FileName ++ " deleted successfully".toList }, fs1)

/-- The handler `RenameFile`: the rename operation. -/
def RenameFile (fs : FS) (req : RenameRequest) : Except Err Response × FS :=
  let oldFilePath := Join [uploadsFolder, req.OldFileName]
  let newFilePath := Join [uploadsFolder, req.NewFileName]
  match renameFile fs oldFilePath newFilePath with
  | .error e => (.error e, fs)
  | .ok fs1 =>
    (.ok { Message := "File ".toList ++ req.OldFileName ++ " renamed to ".toList
                        ++ req.NewFileName }, fs1)

end server

/-! ## The client (`client/main.go`) -/

/-- A remote call as the client issues it. An upload is listed when its send
side is closed (`CloseAndRecv`), with every payload that was handed to `Send`
before, in order. -/
inductive Call
  | UploadFile (sent : List Bytes)
  | DownloadFile (req : FileRequest)
  | DeleteFile (req : FileRequest)
  | RenameFile (req : RenameRequest)
  deriving DecidableEq, Repr

/-- The state of a run: the client's file system, the server's file system,
and the remote calls issued so far. -/
structure World where
  client : FS
  server : FS
  calls : List Call
  deriving DecidableEq, Repr

/-- How a Go function ends: it returns, or it panics. -/
inductive Outcome (α : Type)
  | ret (v : α)
  | panic
  deriving DecidableEq, Repr

/-- The receiving end of a download stream (`pb.FileService_DownloadFileClient`):
the chunks still to be received, then `io.EOF` when `last` is `none`, or the
error `last`. -/
structure ClientStream where
  msgs : List Bytes
  last : Option Err
  deriving DecidableEq, Repr

namespace FileServiceClient

/-- The stub `DownloadFile` (server-streaming): it returns once the request
is on its way; an error of the handler arrives through `Recv`. -/
def DownloadFile (env : Env) (w : World) (req : FileRequest) (fuel : Nat) :
    Option (Except Err ClientStream × World) :=
  let w1 := { w with calls := w.calls ++ [Call.DownloadFile req] }
  if env.streamFails then some (.error .transport, w1)
  else
    match server.DownloadFile env w.server req fuel with
    | none => none
    | some (none, out) => some (.ok { msgs := out.sent, last := none }, w1)
    | some (some _, out) => some (.ok { msgs := out.sent, last := some .status }, w1)

/-- The stub `DeleteFile` (unary): the handler's response, or an error and no
response. -/
def DeleteFile (env : Env) (w : World) (req : FileRequest) : Except Err Response × World :=
  let w1 := { w with calls := w.calls ++ [Call.DeleteFile req] }
  if env.callFails then (.error .transport, w1)
  else
    match server.DeleteFile w.server req with
    | (.error _, fs) => (.error .status, { w1 with server := fs })
    | (.ok resp, fs) => (.ok resp, { w1 with server := fs })

/-- The stub `RenameFile` (unary): the handler's response, or an error and no
response. -/
def RenameFile (env : Env) (w : World) (req : RenameRequest) : Except Err Response × World :=
  let w1 := { w with calls := w.calls ++ [Call.RenameFile req] }
  if env.callFails then (.error .transport, w1)
  else
    match server.RenameFile w.server req with
    | (.error _, fs) => (.error .status, { w1 with server := fs })
    | (.ok resp, fs) => (.ok resp, { w1 with server := fs })

end FileServiceClient

/-- An event of the file-system observer (`fsnotify.Event`). -/
structure Event where
  Name : Path
  Op : Nat
  deriving DecidableEq, Repr

namespace fsnotify

/-- The operation bit `fsnotify.Create`. -/
def Create : Nat := 1

/-- The operation bit `fsnotify.Write`. -/
def Write : Nat := 2

/-- The operation bit `fsnotify.Remove`. -/
def Remove : Nat := 4

/-- The operation bit `fsnotify.Rename`. -/
def Rename : Nat := 8

/-- The operation bit `fsnotify.Chmod`. -/
def Chmod : Nat := 16

end fsnotify

namespace client

/-- Helper function to create a file stream for uploading. -/
def createUploadStream (env : Env) : Except Err SendStream :=
  if env.streamFails then .error .transport else .ok { sent := [] }

/-- Helper function to send the file name to the server. -/
def sendFileName (env : Env) (stream : SendStream) (fileName : Path) : Option Err × SendStream :=
  stream.Send env fileName

/-- Helper function to send file data to the server. -/
def sendFileData (env : Env) (stream : SendStream) (data : Bytes) : Option Err × SendStream :=
  stream.Send env data

/-- Helper function to close the file stream: the send side is closed, the
handler consumes what was delivered and returns. The error `CloseAndRecv`
reports is dropped by the only caller (a `defer`) and is not modelled. -/
def closeFileStream (env : Env) (w : World) (stream : SendStream) : World :=
  { w with
    server := (server.UploadFile w.server (wire env.sendFails stream.sent)).2
    calls := w.calls ++ [Call.UploadFile stream.sent] }

/-- The receive loop of `downloadFile`: every chunk is appended to the open
file (a failed write is logged and the loop goes on) until `Recv` reports
`io.EOF` or an error. -/
def downloadLoop (file : Path) : List Bytes → FS → FS
  | [], fs => fs
  | data :: rest, fs =>
    match fs.Write file data with
    | .error _ => downloadLoop file rest fs
    | .ok fs1 => downloadLoop file rest fs1

/-- Helper function to download a file from the server. -/
def downloadFile (env : Env) (w : World) (fileName filePath : Path) (fuel : Nat) :
    Option (Outcome Unit × World) :=
  match FileServiceClient.DownloadFile env w { FileName := fileName } fuel with
  | none => none
  | some (.error _, w1) => some (.ret (), w1)
  | some (.ok stream, w1) =>
    match w1.client.Create (filePath ++ '/' :: fileName) with
    | .error _ => some (.ret (), w1)
    | .ok (file, fs1) =>
      some (.ret (), { w1 with client := downloadLoop file stream.msgs fs1 })

/-- The function `copyFile`: `io.Copy` reads the source as it is once the
destination has been created. -/
def copyFile (fs : FS) (sourceFile destinationFile : Path) : Option Err × FS :=
  match fs.Open sourceFile with
  | .error e => (some e, fs)
  | .ok _ =>
    match fs.Create destinationFile with
    | .error e => (some e, fs)
    | .ok (dst, fs1) =>
      match fs1.Open sourceFile with
      | .ok (.reg content) =>
        match fs1.Write dst content with
        | .error e => (some e, fs1)
        | .ok fs2 => (none, fs2)
      | .ok .dir => (some .isDir, fs1)
      | .ok .nil => (some .invalid, fs1)
      | .error e => (some e, fs1)

/-- The read-and-send loop of `uploadFile`: it stops at `io.EOF` only; a read
error and a send error are logged and the loop goes on. -/
def uploadLoop (env : Env) : Nat → File → SendStream → Option SendStream
  | 0, _, _ => none
  | fuel + 1, file, stream =>
    match file.Read 1024 with
    | ((_, some .EOF), _) => some stream
    | ((data, _), file1) => uploadLoop env fuel file1 (sendFileData env stream data).2

/-- The priming step of `uploadFile` (the block that starts at
`downloadsFilePath := ...`): when `os.Stat` reports that the name is missing
from the `downloads` folder the source is copied there. The result is the
error that makes `uploadFile` return, if any, and the file system afterwards. -/
def primeMirror (fs : FS) (filePath fileName : Path) : Option Err × FS :=
  let downloadsFilePath := downloadsFolder ++ '/' :: fileName
  match fs.Stat downloadsFilePath with
  | .error e => if IsNotExist e then copyFile fs filePath downloadsFilePath else (none, fs)
  | .ok _ => (none, fs)

/-- The function `uploadFile`. -/
def uploadFile (env : Env) (w : World) (filePath fileName : Path) (fuel : Nat) :
    Option (Outcome (Option Err) × World) :=
  match w.client.Stat filePath with
  | .error e => some (.ret (some e), w)
  | .ok _ =>
    match primeMirror w.client filePath fileName with
    | (some e, fs1) => some (.ret (some e), { w with client := fs1 })
    | (none, fs1) =>
      let w1 := { w with client := fs1 }
      match createUploadStream env with
      | .error _ =>
        -- the stream is nil: `sendFileName` calls `Send` on it
        some (.panic, w1)
      | .ok stream =>
        let file : File :=
          match w1.client.Open filePath with
          | .error _ => File.nil
          | .ok f => f
        match uploadLoop env fuel file (sendFileName env stream fileName).2 with
        | none => none
        | some stream1 => some (.ret none, closeFileStream env w1 stream1)

/-- Helper function to delete a file on the server. -/
def deleteFile (env : Env) (w : World) (fileName : Path) : Outcome Unit × World :=
  let fName := downloadsFolder ++ '/' :: fileName
  let w1 : World :=
    match w.client.Remove fName with
    | .error _ => w
    | .ok fs1 => { w with client := fs1 }
  match FileServiceClient.DeleteFile env w1 { FileName := fileName } with
  | (.error _, w2) => (.panic, w2)
  | (.ok _, w2) => (.ret (), w2)

/-- Helper function to rename a file on the server. -/
def renameFile (env : Env) (w : World) (oldFileName newFileName : Path) : Outcome Unit × World :=
  match w.client.Stat (downloadsFolder ++ '/' :: oldFileName) with
  | .error _ => (.ret (), w)
  | .ok _ =>
    let w1 : World :=
      match w.client.Rename (downloadsFolder ++ '/' :: oldFileName)
              (downloadsFolder ++ '/' :: newFileName) with
      | .error _ => w
      | .ok fs1 => { w with client := fs1 }
    match FileServiceClient.RenameFile env w1
            { OldFileName := oldFileName, NewFileName := newFileName } with
    | (.error _, w2) => (.panic, w2)
    | (.ok _, w2) => (.ret (), w2)

/-- Drop the value a call returns, as a statement call does. -/
def discard {α : Type} (r : Outcome α × World) : Outcome Unit × World :=
  match r with
  | (.ret _, w) => (.ret (), w)
  | (.panic, w) => (.panic, w)

/-- The method `handleEvent`. -/
def handleEvent (env : Env) (w : World) (event : Event) (fuel : Nat) :
    Option (Outcome Unit × World) :=
  if event.Op &&& fsnotify.Create = fsnotify.Create then
    let lists := Split event.Name
    let fileName := lastOf lists
    (uploadFile env w event.Name fileName fuel).map discard
  else if event.Op &&& fsnotify.Write = fsnotify.Write then
    let lists := Split event.Name
    let fileName := lastOf lists
    (uploadFile env w event.Name fileName fuel).map discard
  else if event.Op &&& fsnotify.Rename = fsnotify.Rename then
    match w.client.Stat event.Name with
    | .ok _ => some (renameFile env w [] event.Name)
    | .error e =>
      if IsNotExist e then
        let lists := Split event.Name
        let fileName := lastOf lists
        some (deleteFile env w fileName)
      else some (.ret (), w)
  else some (.ret (), w)

end client

/-! ## Notions the claims are stated with -/

/-- The windows a file is read in: successive reads of at most 1024 bytes
until nothing is left. -/
def chunksOf : Nat → Bytes → List Bytes
  | 0, _ => []
  | _ + 1, [] => []
  | fuel + 1, b :: bs => (b :: bs).take 1024 :: chunksOf fuel ((b :: bs).drop 1024)

/-- A path component that names an entry: not empty, not `.` and not `..`. -/
def plainComponent (c : List Char) : Bool :=
  c ≠ [] ∧ c ≠ ['.'] ∧ c ≠ ['.', '.']

/-- A name all of whose components, between slashes, name entries. -/
def plainName (name : Path) : Bool :=
  (Split name).all plainComponent

/-- Whether `p` denotes an entry strictly inside the directory `root`: `p` is
`root`, a slash, and a non-empty descent through named entries. -/
def strictlyInside (root p : Path) : Bool :=
  (root ++ ['/']).isPrefixOf p && plainName (p.drop (root.length + 1))

/-- A client file system: the `downloads` mirror with a subdirectory `a`, a
source file `f.txt`, and a destination directory `out` with a subdirectory. -/
def homeFS : FS :=
  [("downloads".toList, .dir), ("downloads/a".toList, .dir),
   ("f.txt".toList, .file "hello".toList),
   ("out".toList, .dir), ("out/a".toList, .dir)]

/-- A server file system: the `uploads` root holding one file. -/
def storeFS : FS :=
  [("uploads".toList, .dir), ("uploads/notes.txt".toList, .file "old text".toList)]

/-- A run that starts from `homeFS` and `storeFS` with no call issued. -/
def startWorld : World :=
  { client := homeFS, server := storeFS, calls := [] }

/-- A watched mirror after `a.txt` was renamed to `b.txt` locally, the server
still holding `a.txt`. -/
def renamedWorld : World :=
  { client := [("downloads".toList, .dir), ("downloads/b.txt".toList, .file "hi".toList)],
    server := [("uploads".toList, .dir), ("uploads/a.txt".toList, .file "hi".toList)],
    calls := [] }

/-- A watched mirror after `notes.txt` was deleted locally, the server still
holding it. -/
def deletedWorld : World :=
  { client := [("downloads".toList, .dir)], server := storeFS, calls := [] }

/-- A client file system whose mirror already holds `notes.txt`, with a
content other than the source file's. -/
def mirroredFS : FS :=
  ("downloads/notes.txt".toList, .file "stale".toList) :: homeFS

/-! ## Facts about the file-system model -/

theorem FS.lookup_del_self (fs : FS) (key : Path) : FS.lookup (fs.del key) key = none := by
  induction fs with
  | nil => rfl
  | cons e rest ih =>
    obtain ⟨k, n⟩ := e
    by_cases h : k = key <;> simp [FS.del, FS.lookup, h, ih]

theorem FS.lookup_del_other (fs : FS) (key q : Path) (h : q ≠ key) :
    FS.lookup (fs.del key) q = FS.lookup fs q := by
  induction fs with
  | nil => rfl
  | cons e rest ih =>
    obtain ⟨k, n⟩ := e
    by_cases hk : k = key
    · have hq : ¬ key = q := fun hkq => h hkq.symm
      simp [FS.del, FS.lookup, hk, hq, ih]
    · by_cases hq : k = q
      · subst hq
        simp [FS.del, FS.lookup, hk]
      · simp [FS.del, FS.lookup, hk, hq, ih]

theorem FS.del_eq_self (fs : FS) (key : Path) (h : fs.lookup key = none) : fs.del key = fs := by
  induction fs with
  | nil => rfl
  | cons e rest ih =>
    obtain ⟨k, n⟩ := e
    by_cases hk : k = key
    · simp [FS.lookup, hk] at h
    · simp [FS.lookup, hk] at h
      simp [FS.del, hk, ih h]

theorem FS.lookup_put_self (fs : FS) (key : Path) (n : Node) :
    FS.lookup (fs.put key n) key = some n := by
  simp [FS.put, FS.lookup]

theorem FS.lookup_put_other (fs : FS) (key q : Path) (n : Node) (h : q ≠ key) :
    FS.lookup (fs.put key n) q = FS.lookup fs q := by
  have h2 : ¬ key = q := fun e => h e.symm
  simp [FS.put, FS.lookup, h2, FS.lookup_del_other fs key q h]

theorem FS.node_put_other (fs : FS) (key q : Path) (n : Node) (h : q ≠ key) :
    FS.node (fs.put key n) q = FS.node fs q := by
  simp [FS.node, FS.lookup_put_other fs key q n h]

theorem FS.node_del_other (fs : FS) (key q : Path) (h : q ≠ key) :
    FS.node (fs.del key) q = FS.node fs q := by
  simp [FS.node, FS.lookup_del_other fs key q h]

/-- A path whose node is not a directory is not one of the built-in
directories, so its node is its table entry. -/
theorem FS.node_not_dir_key (fs : FS) (key : Path) (h : fs.node key ≠ some .dir) :
    implicitDir key = false ∧ fs.lookup key = fs.node key := by
  unfold FS.node at h ⊢
  by_cases hk : implicitDir key = true
  · simp [hk] at h
  · simp only [hk] at h ⊢
    exact ⟨by simp [hk], by simp⟩

theorem FS.node_file_key (fs : FS) (key : Path) (c : Bytes)
    (h : fs.node key = some (.file c)) :
    implicitDir key = false ∧ fs.lookup key = some (.file c) := by
  obtain ⟨h1, h2⟩ := FS.node_not_dir_key fs key (by rw [h]; simp)
  exact ⟨h1, by rw [h2, h]⟩

theorem FS.node_none_key (fs : FS) (key : Path) (h : fs.node key = none) :
    implicitDir key = false ∧ fs.lookup key = none := by
  obtain ⟨h1, h2⟩ := FS.node_not_dir_key fs key (by rw [h]; simp)
  exact ⟨h1, by rw [h2, h]⟩

theorem FS.node_put_self (fs : FS) (key : Path) (n : Node)
    (h : implicitDir key = false) : FS.node (fs.put key n) key = some n := by
  simp [FS.node, h, FS.lookup_put_self]

theorem FS.node_del_self (fs : FS) (key : Path)
    (h : implicitDir key = false) : FS.node (fs.del key) key = none := by
  simp [FS.node, h, FS.lookup_del_self]

theorem FS.put_put (fs : FS) (key : Path) (n m : Node) :
    (fs.put key n).put key m = fs.put key m := by
  have h : (fs.del key).del key = fs.del key :=
    FS.del_eq_self _ _ (FS.lookup_del_self fs key)
  simp [FS.put, FS.del, h]

/-- Writing to an open regular file appends to its content. -/
theorem FS.Write_file (fs : FS) (key : Path) (c data : Bytes)
    (h : fs.node key = some (.file c)) :
    fs.Write key data = .ok (fs.put key (.file (c ++ data))) ∧
      (fs.put key (.file (c ++ data))).node key = some (.file (c ++ data)) := by
  obtain ⟨h1, _⟩ := FS.node_file_key fs key c h
  exact ⟨by simp [FS.Write, h], FS.node_put_self fs key _ h1⟩

/-- The walk of a path that succeeds goes through directories only, so it
gives the same result in every file system that has those directories. -/
theorem FS.walkFrom_mono (fs fs1 : FS)
    (hdir : ∀ q, fs.node q = some .dir → fs1.node q = some .dir)
    (cs : List Path) (cur key : Path) (h : fs.walkFrom cur cs = .ok key) :
    fs1.walkFrom cur cs = .ok key := by
  induction cs generalizing cur with
  | nil => simpa [FS.walkFrom] using h
  | cons c rest ih =>
    unfold FS.walkFrom at h ⊢
    by_cases hr : rest = []
    · simpa [hr] using h
    · simp only [hr, if_false] at h ⊢
      cases hn : fs.node (stepInto cur c) with
      | none => simp [hn] at h
      | some n =>
        cases n with
        | file x => simp [hn] at h
        | dir =>
          rw [hn] at h
          rw [hdir _ hn]
          exact ih _ h

theorem FS.walk_mono (fs fs1 : FS)
    (hdir : ∀ q, fs.node q = some .dir → fs1.node q = some .dir)
    (p key : Path) (h : fs.walk p = .ok key) : fs1.walk p = .ok key := by
  unfold FS.walk at h ⊢
  by_cases h1 : p = []
  · simp [h1] at h
  · by_cases h2 : Char.ofNat 0 ∈ p
    · simp [h1, h2] at h
    · by_cases h3 : p.length > pathMax ∨ (components p).any (fun c => c.length > nameMax) = true
      · simp only [h1, h2, h3, if_true, if_false] at h
        simp at h
      · simp only [h1, h2, h3, if_false] at h ⊢
        exact FS.walkFrom_mono fs fs1 hdir _ _ _ h

/-- Binding a path that is not a directory to a regular file keeps every
directory. -/
theorem FS.dirs_put_file (fs : FS) (key : Path) (x : Bytes) (hk : fs.node key ≠ some .dir) :
    ∀ q, fs.node q = some .dir → (fs.put key (.file x)).node q = some .dir := by
  intro q hq
  have hne : q ≠ key := fun e => hk (e ▸ hq)
  rw [FS.node_put_other fs key q _ hne, hq]

/-- Dropping a path that is not a directory keeps every directory. -/
theorem FS.dirs_del_file (fs : FS) (key : Path) (hk : fs.node key ≠ some .dir) :
    ∀ q, fs.node q = some .dir → (fs.del key).node q = some .dir := by
  intro q hq
  have hne : q ≠ key := fun e => hk (e ▸ hq)
  rw [FS.node_del_other fs key q hne, hq]

/-- What `os.Stat` reporting a missing path means: the walk stopped at a
missing directory, or it reached a path that names nothing. -/
theorem FS.Stat_notExist (fs : FS) (p : Path) (h : fs.Stat p = .error .notExist) :
    fs.walk p = .error .notExist ∨ ∃ key, fs.walk p = .ok key ∧ fs.node key = none := by
  unfold FS.Stat at h
  cases hw : fs.walk p with
  | error e =>
    rw [hw] at h
    simp at h
    left; rw [h]
  | ok key =>
    rw [hw] at h
    simp only at h
    right
    refine ⟨key, rfl, ?_⟩
    cases hn : fs.node key with
    | none => rfl
    | some n =>
      rw [hn] at h
      cases n with
      | file c => by_cases ht : trailingSep p = true <;> simp [ht] at h
      | dir => simp at h

/-- What `os.Stat` reporting a regular file means. -/
theorem FS.Stat_file (fs : FS) (p : Path) (c : Bytes) (h : fs.Stat p = .ok (.file c)) :
    ∃ key, fs.walk p = .ok key ∧ fs.node key = some (.file c) ∧ trailingSep p = false := by
  unfold FS.Stat at h
  cases hw : fs.walk p with
  | error e => simp [hw] at h
  | ok key =>
    rw [hw] at h
    simp only at h
    refine ⟨key, rfl, ?_⟩
    cases hn : fs.node key with
    | none => simp [hn] at h
    | some n =>
      rw [hn] at h
      cases n with
      | file c2 =>
        by_cases ht : trailingSep p = true
        · simp [ht] at h
        · simp [ht] at h
          simp at ht
          exact ⟨by rw [h], ht⟩
      | dir => simp at h

theorem FS.Stat_of_walk_file (fs : FS) (p key : Path) (c : Bytes)
    (hw : fs.walk p = .ok key) (ht : trailingSep p = false)
    (h : fs.node key = some (.file c)) : fs.Stat p = .ok (.file c) := by
  simp [FS.Stat, hw, h, ht]

theorem FS.Open_file (fs : FS) (p : Path) (c : Bytes) (h : fs.Stat p = .ok (.file c)) :
    fs.Open p = .ok (.reg c) := by
  simp [FS.Open, h]

/-- What a successful `os.Create` does to the table. -/
theorem FS.Create_ok (fs : FS) (p : Path) (r : Path × FS) (h : fs.Create p = .ok r) :
    ∃ key, fs.walk p = .ok key ∧ trailingSep p = false ∧ fs.node key ≠ some .dir ∧
      r = (key, fs.put key (.file [])) := by
  unfold FS.Create at h
  cases hw : fs.walk p with
  | error e => simp [hw] at h
  | ok key =>
    rw [hw] at h
    simp only at h
    by_cases ht : trailingSep p = true
    · simp [ht] at h
    · simp only [ht, if_false] at h
      have ht2 : trailingSep p = false := by simpa using ht
      refine ⟨key, rfl, ht2, ?_⟩
      cases hn : fs.node key with
      | none =>
        rw [hn] at h
        simp at h
        exact ⟨by simp, h.symm⟩
      | some n =>
        cases n with
        | dir => simp [hn] at h
        | file c0 =>
          rw [hn] at h
          simp at h
          exact ⟨by simp, h.symm⟩

theorem FS.Create_of_walk (fs : FS) (p key : Path)
    (hw : fs.walk p = .ok key) (ht : trailingSep p = false) (hn : fs.node key ≠ some .dir) :
    fs.Create p = .ok (key, fs.put key (.file [])) := by
  unfold FS.Create
  cases hk : fs.node key with
  | none => simp [hw, ht, hk]
  | some n =>
    cases n with
    | dir => exact absurd hk hn
    | file c => simp [hw, ht, hk]

/-- Once a path has been created or written as a regular file, `os.Stat`
finds that file under it. -/
theorem FS.Stat_put_created (fs : FS) (p key : Path) (x : Bytes)
    (hw : fs.walk p = .ok key) (ht : trailingSep p = false) (hn : fs.node key ≠ some .dir) :
    (fs.put key (.file x)).Stat p = .ok (.file x) := by
  obtain ⟨hi, _⟩ := FS.node_not_dir_key fs key hn
  exact FS.Stat_of_walk_file _ p key x
    (FS.walk_mono fs _ (FS.dirs_put_file fs key x hn) p key hw) ht
    (FS.node_put_self fs key _ hi)

/-- Binding a path that is not a directory to a regular file keeps every
other regular file that `os.Stat` finds. -/
theorem FS.Stat_put_keeps (fs : FS) (key q : Path) (x c : Bytes)
    (hk : fs.node key ≠ some .dir) (hq : fs.Stat q = .ok (.file c))
    (hne : fs.walk q ≠ .ok key) :
    (fs.put key (.file x)).Stat q = .ok (.file c) := by
  obtain ⟨kq, hw, hn, ht⟩ := FS.Stat_file fs q c hq
  have hkq : kq ≠ key := fun e => hne (by rw [hw, e])
  exact FS.Stat_of_walk_file _ q kq c
    (FS.walk_mono fs _ (FS.dirs_put_file fs key x hk) q kq hw) ht
    (by rw [FS.node_put_other fs key kq _ hkq, hn])

/-- Binding an unused path to a regular file keeps every regular file. -/
theorem FS.Stat_put_fresh (fs : FS) (key q : Path) (x c : Bytes)
    (hkey : fs.node key = none) (hq : fs.Stat q = .ok (.file c)) :
    (fs.put key (.file x)).Stat q = .ok (.file c) := by
  obtain ⟨kq, hw, hn, _⟩ := FS.Stat_file fs q c hq
  apply FS.Stat_put_keeps fs key q x c (by rw [hkey]; simp) hq
  intro e
  rw [hw] at e
  injection e with e
  rw [e, hkey] at hn
  simp at hn

/-- Binding an unused path to a regular file keeps every path creatable. -/
theorem FS.Create_put_fresh (fs : FS) (key p : Path) (x : Bytes) (r : Path × FS)
    (hkey : fs.node key = none) (h : fs.Create p = .ok r) :
    ∃ r1, (fs.put key (.file x)).Create p = .ok r1 := by
  obtain ⟨k, hw, ht, hnd, _⟩ := FS.Create_ok fs p r h
  obtain ⟨hi, _⟩ := FS.node_none_key fs key hkey
  have hw2 := FS.walk_mono fs _ (FS.dirs_put_file fs key x (by rw [hkey]; simp)) p k hw
  have hnd2 : (fs.put key (.file x)).node k ≠ some .dir := by
    by_cases e : k = key
    · rw [e, FS.node_put_self fs key _ hi]; simp
    · rw [FS.node_put_other fs key _ _ e]; exact hnd
  exact ⟨_, FS.Create_of_walk _ p k hw2 ht hnd2⟩

theorem Clean_ne_nil (p : Path) : Clean p ≠ [] := by
  unfold Clean
  by_cases h : p = []
  · simp [h]
  · simp only [h, if_false]
    split <;> split <;> simp_all

theorem Join_uploads (N : Path) :
    Join [uploadsFolder, N] = Clean (uploadsFolder ++ '/' :: N) := by
  simp [Join, joinSep, uploadsFolder]

theorem Join_uploads_ne_nil (N : Path) : Join [uploadsFolder, N] ≠ [] := by
  rw [Join_uploads]; exact Clean_ne_nil _

/-! ## Reading in windows -/

theorem chunksOf_join (fuel : Nat) (B : Bytes) (h : B.length < fuel) :
    (chunksOf fuel B).flatten = B := by
  induction fuel generalizing B with
  | zero => omega
  | succ fuel ih =>
    cases B with
    | nil => simp [chunksOf]
    | cons b bs =>
      have hd : ((b :: bs).drop 1024).length < fuel := by
        simp only [List.length_drop, List.length_cons] at *; omega
      rw [chunksOf, List.flatten_cons, ih _ hd, List.take_append_drop]

theorem chunksOf_length (fuel : Nat) (B : Bytes) (h : B.length < fuel) :
    (chunksOf fuel B).length = (B.length + 1023) / 1024 := by
  induction fuel generalizing B with
  | zero => omega
  | succ fuel ih =>
    cases B with
    | nil => simp [chunksOf]
    | cons b bs =>
      have hd : ((b :: bs).drop 1024).length < fuel := by
        simp only [List.length_drop, List.length_cons] at *; omega
      rw [chunksOf, List.length_cons, ih _ hd]
      simp only [List.length_drop, List.length_cons]
      omega

theorem chunksOf_bounds (fuel : Nat) (B : Bytes) :
    ∀ c ∈ chunksOf fuel B, c ≠ [] ∧ c.length ≤ 1024 := by
  induction fuel generalizing B with
  | zero => intro c hc; simp [chunksOf] at hc
  | succ fuel ih =>
    cases B with
    | nil => intro c hc; simp [chunksOf] at hc
    | cons b bs =>
      intro c hc
      rw [chunksOf, List.mem_cons] at hc
      rcases hc with hc | hc
      · subst hc
        refine ⟨by simp, ?_⟩
        rw [List.length_take]; omega
      · exact ih _ c hc

theorem SendStream.Send_sent (env : Env) (s : SendStream) (data : Bytes) :
    (s.Send env data).2 = { sent := s.sent ++ [data] } := rfl

/-- The upload loop on a regular file hands every window to `Send`, in file
order, whatever `Send` answers, and then stops. -/
theorem client.uploadLoop_reg (env : Env) (fuel : Nat) (B : Bytes) (s : SendStream)
    (h : B.length < fuel) :
    client.uploadLoop env fuel (.reg B) s = some { sent := s.sent ++ chunksOf fuel B } := by
  induction fuel generalizing B s with
  | zero => omega
  | succ fuel ih =>
    cases B with
    | nil => simp [client.uploadLoop, File.Read, chunksOf]
    | cons b bs =>
      have hd : ((b :: bs).drop 1024).length < fuel := by
        simp only [List.length_drop, List.length_cons] at *; omega
      simp only [client.uploadLoop, File.Read, client.sendFileData, SendStream.Send_sent]
      rw [ih _ _ hd]
      simp [chunksOf]

/-- The send loop of the server on a regular file, over a network that does
not fail, sends every window in file order and returns nil. -/
theorem server.sendLoop_reg (fuel : Nat) (B : Bytes) (s : SendStream) (h : B.length < fuel) :
    server.sendLoop reliable fuel (.reg B) s
      = some (none, { sent := s.sent ++ chunksOf fuel B }) := by
  induction fuel generalizing B s with
  | zero => omega
  | succ fuel ih =>
    cases B with
    | nil => simp [server.sendLoop, File.Read, chunksOf]
    | cons b bs =>
      have hd : ((b :: bs).drop 1024).length < fuel := by
        simp only [List.length_drop, List.length_cons] at *; omega
      have hs : reliable.sendFails = [] := rfl
      simp only [server.sendLoop, File.Read, SendStream.Send, hs, List.getD_nil]
      simp only [if_false, Bool.false_eq_true]
      rw [ih _ _ hd]
      simp [chunksOf]

/-! ## The priming step and the transfer loops -/

/-- The priming step on a name that `os.Stat` reports missing and `os.Create`
can create: the created path, unused before, is bound to a copy of the
source. -/
theorem client.primeMirror_fresh (fs : FS) (filePath N : Path) (B : Bytes) (r : Path × FS)
    (hsrc : fs.Stat filePath = .ok (.file B))
    (habs : fs.Stat (downloadsFolder ++ '/' :: N) = .error .notExist)
    (hc : fs.Create (downloadsFolder ++ '/' :: N) = .ok r) :
    fs.node r.1 = none ∧
      client.primeMirror fs filePath N = (none, fs.put r.1 (.file B)) := by
  obtain ⟨k, hw, ht, hnd, hr⟩ := FS.Create_ok fs _ r hc
  subst hr
  have hnone : fs.node k = none := by
    rcases FS.Stat_notExist fs _ habs with h | ⟨k2, h1, h2⟩
    · rw [hw] at h; simp at h
    · rw [hw] at h1
      injection h1 with h1
      rw [h1]; exact h2
  obtain ⟨hi, _⟩ := FS.node_none_key fs k hnone
  have hopen := FS.Open_file fs filePath B hsrc
  have hopen2 := FS.Open_file _ filePath B (FS.Stat_put_fresh fs k filePath [] B hnone hsrc)
  obtain ⟨hwr, _⟩ := FS.Write_file (fs.put k (.file [])) k [] B (FS.node_put_self fs _ _ hi)
  refine ⟨hnone, ?_⟩
  unfold client.primeMirror client.copyFile
  simp only [habs, IsNotExist, if_true, hopen, hc, hopen2, hwr, FS.put_put, List.nil_append]

/-- The priming step on a name that `os.Stat` reports missing and `os.Create`
cannot create: the error of `os.Create` comes back and nothing has changed. -/
theorem client.primeMirror_refused (fs : FS) (filePath N : Path) (B : Bytes) (e : Err)
    (hsrc : fs.Stat filePath = .ok (.file B))
    (habs : fs.Stat (downloadsFolder ++ '/' :: N) = .error .notExist)
    (hc : fs.Create (downloadsFolder ++ '/' :: N) = .error e) :
    client.primeMirror fs filePath N = (some e, fs) := by
  have hopen := FS.Open_file fs filePath B hsrc
  unfold client.primeMirror client.copyFile
  simp only [habs, IsNotExist, if_true, hopen, hc]

/-- The priming step on a name for which `os.Stat` reports anything but a
missing path: nothing is copied. -/
theorem client.primeMirror_skipped (fs : FS) (filePath N : Path)
    (h : ∀ e, fs.Stat (downloadsFolder ++ '/' :: N) = .error e → IsNotExist e = false) :
    client.primeMirror fs filePath N = (none, fs) := by
  unfold client.primeMirror
  cases hs : fs.Stat (downloadsFolder ++ '/' :: N) with
  | ok n => simp [hs]
  | error e => simp [hs, h e hs]

/-- A priming step that does not fail either leaves the file system alone or
binds a so far unused path to a copy of the source. -/
theorem client.primeMirror_ok (fs : FS) (filePath N : Path) (B : Bytes)
    (hsrc : fs.Stat filePath = .ok (.file B))
    (hprime : (client.primeMirror fs filePath N).1 = none) :
    (client.primeMirror fs filePath N).2 = fs ∨
      ∃ key, fs.node key = none ∧
        (client.primeMirror fs filePath N).2 = fs.put key (.file B) := by
  cases hs : fs.Stat (downloadsFolder ++ '/' :: N) with
  | ok n =>
    left
    rw [client.primeMirror_skipped fs filePath N (by intro e he; rw [hs] at he; simp at he)]
  | error e =>
    by_cases he : IsNotExist e = true
    · have hee : e = .notExist := by cases e <;> simp_all [IsNotExist]
      subst hee
      cases hc : fs.Create (downloadsFolder ++ '/' :: N) with
      | error e1 =>
        rw [client.primeMirror_refused fs filePath N B e1 hsrc hs hc] at hprime
        simp at hprime
      | ok r =>
        obtain ⟨h1, h2⟩ := client.primeMirror_fresh fs filePath N B r hsrc hs hc
        right
        exact ⟨r.1, h1, by rw [h2]⟩
    · left
      rw [client.primeMirror_skipped fs filePath N (by
        intro e2 he2
        rw [hs] at he2
        injection he2 with he2
        subst he2
        simpa using he)]

/-- A priming step that does not fail leaves every regular file that existed
before with its content. -/
theorem client.primeMirror_keeps (fs : FS) (filePath N q : Path) (B c : Bytes)
    (hsrc : fs.Stat filePath = .ok (.file B))
    (hq : fs.Stat q = .ok (.file c))
    (hprime : (client.primeMirror fs filePath N).1 = none) :
    (client.primeMirror fs filePath N).2.Stat q = .ok (.file c) := by
  rcases client.primeMirror_ok fs filePath N B hsrc hprime with h | ⟨key, hk, h⟩
  · rw [h, hq]
  · rw [h]; exact FS.Stat_put_fresh fs _ q B c hk hq

theorem client.primeMirror_creatable (fs : FS) (filePath N p : Path) (B : Bytes) (r : Path × FS)
    (hsrc : fs.Stat filePath = .ok (.file B))
    (hc : fs.Create p = .ok r)
    (hprime : (client.primeMirror fs filePath N).1 = none) :
    ∃ r1, (client.primeMirror fs filePath N).2.Create p = .ok r1 := by
  rcases client.primeMirror_ok fs filePath N B hsrc hprime with h | ⟨key, hk, h⟩
  · rw [h]; exact ⟨r, hc⟩
  · rw [h]; exact FS.Create_put_fresh fs _ p B r hk hc

theorem wire_nil (l : List Bytes) : wire [] l = { msgs := l, broken := false } := by
  cases l <;> rfl

/-- The receive loop of the server appends every message to the open file and
touches nothing else. -/
theorem server.receiveLoop_appends (key : Path) (msgs : List Bytes) (fs : FS) (c : Bytes)
    (h : fs.node key = some (.file c)) :
    (server.receiveLoop false key msgs fs).1 = none ∧
      (server.receiveLoop false key msgs fs).2.node key = some (.file (c ++ msgs.flatten)) ∧
      (∀ q, q ≠ key → (server.receiveLoop false key msgs fs).2.node q = fs.node q) := by
  induction msgs generalizing fs c with
  | nil => simp [server.receiveLoop, h]
  | cons m ms ih =>
    obtain ⟨hw, hn⟩ := FS.Write_file fs key c m h
    obtain ⟨i1, i2, i3⟩ := ih _ _ hn
    simp only [server.receiveLoop, hw]
    refine ⟨i1, ?_, ?_⟩
    · rw [i2]; simp
    · intro q hq; rw [i3 q hq, FS.node_put_other fs key q _ hq]

/-- The receive loop of the client appends every chunk to the open file and
touches nothing else. -/
theorem client.downloadLoop_appends (key : Path) (msgs : List Bytes) (fs : FS) (c : Bytes)
    (h : fs.node key = some (.file c)) :
    (client.downloadLoop key msgs fs).node key = some (.file (c ++ msgs.flatten)) ∧
      (∀ q, q ≠ key → (client.downloadLoop key msgs fs).node q = fs.node q) := by
  induction msgs generalizing fs c with
  | nil => simp [client.downloadLoop, h]
  | cons m ms ih =>
    obtain ⟨hw, hn⟩ := FS.Write_file fs key c m h
    obtain ⟨i2, i3⟩ := ih _ _ hn
    simp only [client.downloadLoop, hw]
    refine ⟨?_, ?_⟩
    · rw [i2]; simp
    · intro q hq; rw [i3 q hq, FS.node_put_other fs key q _ hq]

/-- A file system that differs from another one only under a path that is no
directory there, and holds a regular file under it: `os.Stat` of a path that
walks to it finds that file. -/
theorem FS.Stat_of_frame (fs fs1 : FS) (p key : Path) (x : Bytes)
    (hw : fs.walk p = .ok key) (ht : trailingSep p = false)
    (hnd : fs.node key ≠ some .dir)
    (hframe : ∀ q, q ≠ key → fs1.node q = fs.node q)
    (hnode : fs1.node key = some (.file x)) : fs1.Stat p = .ok (.file x) := by
  have hdir : ∀ q, fs.node q = some .dir → fs1.node q = some .dir := by
    intro q hq
    have hne : q ≠ key := fun e => hnd (e ▸ hq)
    rw [hframe q hne, hq]
  exact FS.Stat_of_walk_file fs1 p key x (FS.walk_mono fs fs1 hdir p key hw) ht hnode

/-- Creating a file and appending to it: what `os.Create` followed by the
writes of a receive loop leaves behind. -/
theorem FS.Create_then (fs : FS) (p : Path) (r : Path × FS) (h : fs.Create p = .ok r) :
    r.2.node r.1 = some (.file []) ∧ (∀ q, q ≠ r.1 → r.2.node q = fs.node q) ∧
      fs.walk p = .ok r.1 ∧ trailingSep p = false ∧ fs.node r.1 ≠ some .dir := by
  obtain ⟨k, hw, ht, hnd, hr⟩ := FS.Create_ok fs p r h
  subst hr
  obtain ⟨hi, _⟩ := FS.node_not_dir_key fs k hnd
  exact ⟨FS.node_put_self fs k _ hi, fun q hq => FS.node_put_other fs k q _ hq, hw, ht, hnd⟩

/-- The server's handler on the stream of a finished upload on which no `Send`
failed, for a name whose file the server can create: the file holds what was
sent after the name, and nothing else has changed. -/
theorem server.UploadFile_stores (fs : FS) (N : Path) (chunks : List Bytes) (r : Path × FS)
    (hc : fs.Create (Join [uploadsFolder, N]) = .ok r) :
    (server.UploadFile fs (wire [] (N :: chunks))).1 = none ∧
      (server.UploadFile fs (wire [] (N :: chunks))).2.Stat
          (Join [uploadsFolder, N]) = .ok (.file chunks.flatten) ∧
      (∀ q, q ≠ r.1 →
        (server.UploadFile fs (wire [] (N :: chunks))).2.node q = fs.node q) := by
  obtain ⟨hnode, hframe, hw, ht, hnd⟩ := FS.Create_then fs _ r hc
  obtain ⟨l1, l2, l3⟩ := server.receiveLoop_appends r.1 chunks r.2 [] hnode
  have hup : server.UploadFile fs (wire [] (N :: chunks))
      = server.receiveLoop false r.1 chunks r.2 := by
    simp [wire_nil, server.UploadFile, server.receiveFileName, server.receiveFile, hc]
  rw [hup]
  have hfr : ∀ q, q ≠ r.1 → (server.receiveLoop false r.1 chunks r.2).2.node q = fs.node q := by
    intro q hq; rw [l3 q hq, hframe q hq]
  exact ⟨l1, FS.Stat_of_frame fs _ _ r.1 _ hw ht hnd hfr (by simpa using l2), hfr⟩

/-- The delete handler on a path for which `os.Stat` fails: `os.Remove` fails
with the same error and the store is as before. -/
theorem server.DeleteFile_error (fs : FS) (N : Path) (e : Err)
    (h : fs.Stat (Join [uploadsFolder, N]) = .error e) :
    server.DeleteFile fs { FileName := N } = (.error e, fs) := by
  have key : fs.Remove (Join [uploadsFolder, N]) = .error e := by
    unfold FS.Remove
    unfold FS.Stat at h
    cases hw : fs.walk (Join [uploadsFolder, N]) with
    | error e1 =>
      rw [hw] at h
      simp at h
      simp [h]
    | ok key =>
      rw [hw] at h
      simp only at h ⊢
      cases hn : fs.node key with
      | none =>
        rw [hn] at h
        simp at h
        obtain ⟨hi, hl⟩ := FS.node_none_key fs key hn
        simp [hi, hl, h]
      | some n =>
        rw [hn] at h
        cases n with
        | dir => simp at h
        | file c =>
          obtain ⟨hi, hl⟩ := FS.node_file_key fs key c hn
          by_cases ht : trailingSep (Join [uploadsFolder, N]) = true
          · simp [ht] at h
            simp [hi, hl, ht, h]
          · simp [ht] at h
  simp [server.DeleteFile, server.deleteFile, key]

/-- The delete handler on a path under which a regular file exists: the entry
is dropped, nothing else changes, the success message is returned, and
`os.Stat` no longer finds the path. -/
theorem server.DeleteFile_file (fs : FS) (N : Path) (c : Bytes)
    (h : fs.Stat (Join [uploadsFolder, N]) = .ok (.file c)) :
    ∃ (key : Path) (fs1 : FS),
      fs.walk (Join [uploadsFolder, N]) = .ok key ∧
      server.DeleteFile fs { FileName := N }
        = (.ok { Message := "File ".toList ++ N ++ " deleted successfully".toList }, fs1) ∧
      fs1.node key = none ∧
      (∀ q, q ≠ key → fs1.node q = fs.node q) ∧
      fs1.Stat (Join [uploadsFolder, N]) = .error .notExist := by
  obtain ⟨key, hw, hn, ht⟩ := FS.Stat_file fs _ c h
  obtain ⟨hi, hl⟩ := FS.node_file_key fs key c hn
  have hnd : fs.node key ≠ some .dir := by rw [hn]; simp
  have hw2 := FS.walk_mono fs _ (FS.dirs_del_file fs key hnd) _ key hw
  refine ⟨key, fs.del key, hw, ?_, FS.node_del_self fs key hi,
    fun q hq => FS.node_del_other fs key q hq, ?_⟩
  · simp [server.DeleteFile, server.deleteFile, FS.Remove, hw, hi, hl, ht]
  · simp [FS.Stat, hw2, FS.node_del_self fs key hi]

/-- The run of `uploadFile` past the priming step over a stream that could be
opened: the name and then every window of the file are handed to `Send`,
the stream is closed, and nil is returned. -/
theorem client.uploadFile_run (env : Env) (w : World) (filePath N : Path) (B : Bytes)
    (fuel : Nat)
    (hsrc : w.client.Stat filePath = .ok (.file B))
    (hprime : (client.primeMirror w.client filePath N).1 = none)
    (hstream : env.streamFails = false)
    (hfuel : B.length < fuel) :
    client.uploadFile env w filePath N fuel
      = some (.ret none,
          client.closeFileStream env
            { w with client := (client.primeMirror w.client filePath N).2 }
            { sent := N :: chunksOf fuel B }) := by
  have hkeep := client.primeMirror_keeps w.client filePath N filePath B B hsrc hsrc hprime
  have hopen := FS.Open_file _ _ _ hkeep
  unfold client.uploadFile
  simp only [hsrc]
  cases hpm : client.primeMirror w.client filePath N with
  | mk e fs1 =>
    rw [hpm] at hprime hopen
    simp only at hprime hopen
    subst hprime
    simp only [client.createUploadStream, hstream, Bool.false_eq_true, if_false, hopen,
      client.sendFileName, SendStream.Send_sent, List.nil_append]
    rw [client.uploadLoop_reg env fuel B _ hfuel]
    simp

/-! ## Paths and names -/

theorem Split_span (l : List Char) :
    Split l = l.takeWhile (· ≠ '/') ::
      (match l.dropWhile (· ≠ '/') with
       | [] => []
       | _ :: t => Split t) := by
  induction l with
  | nil => rfl
  | cons c cs ih =>
    by_cases hc : c = '/'
    · subst hc
      simp [Split]
    · rw [Split, if_neg hc, ih]
      simp [List.takeWhile, List.dropWhile, hc]

theorem dropWhile_head_sep (l : List Char) (d : Char) (t : List Char)
    (h : l.dropWhile (· ≠ '/') = d :: t) : d = '/' := by
  induction l with
  | nil => simp at h
  | cons c cs ih =>
    rw [List.dropWhile_cons] at h
    by_cases hc : c = '/'
    · subst hc
      simp at h
      exact h.1.symm
    · rw [if_pos (by simpa using hc)] at h
      exact ih h

/-- On a name made of plain components the loop of `Clean` copies the name
behind a slash. -/
theorem cleanLoop_plain (n : Nat) :
    ∀ (name out : List Char) (fuel dotdot : Nat), name.length = n → name.length ≤ fuel →
      out ≠ [] → plainName name = true →
      cleanLoop false fuel name out dotdot = out ++ '/' :: name := by
  induction n using Nat.strong_induction_on with
  | _ n ih =>
    intro name out fuel dotdot hn hfuel hout hplain
    have hsplit := Split_span name
    unfold plainName at hplain
    rw [hsplit, List.all_cons, Bool.and_eq_true] at hplain
    obtain ⟨hcomp, hrest⟩ := hplain
    simp only [plainComponent, decide_eq_true_eq] at hcomp
    obtain ⟨hc1, hc2, hc3⟩ := hcomp
    cases name with
    | nil => simp at hc1
    | cons c cs =>
      have hc : c ≠ '/' := by
        intro e; subst e; simp at hc1
      cases fuel with
      | zero => simp at hfuel
      | succ f =>
        have hno1 : ¬ (c = '.' ∧ (cs = [] ∨ cs.head? = some '/')) := by
          rintro ⟨e, h | h⟩
          · subst e; subst h; simp at hc2
          · subst e
            cases cs with
            | nil => simp at h
            | cons d t =>
              simp at h; subst h
              simp at hc2
        have hno2 : ¬ (c = '.' ∧ cs.head? = some '.' ∧
            (cs.tail = [] ∨ cs.tail.head? = some '/')) := by
          rintro ⟨e, h1, h2⟩
          subst e
          cases cs with
          | nil => simp at h1
          | cons d t =>
            simp at h1; subst h1
            rcases h2 with h2 | h2
            · simp at h2; subst h2; simp at hc3
            · cases t with
              | nil => simp at h2
              | cons d2 t2 =>
                simp at h2; subst h2
                simp at hc3
        have hlen : out.length ≠ 0 := by
          intro e; exact hout (List.length_eq_zero.mp e)
        rw [cleanLoop, if_neg hc, if_neg hno1, if_neg hno2]
        simp only [Bool.false_eq_true, false_and, Bool.not_false, true_and, hlen,
          ne_eq, not_false_eq_true, false_or, if_true]
        have hsum := List.takeWhile_append_dropWhile (· ≠ '/') (c :: cs)
        cases hd : (c :: cs).dropWhile (· ≠ '/') with
        | nil =>
          rw [hd, List.append_nil] at hsum
          rw [hsum]
          cases f <;> simp [cleanLoop]
        | cons d t =>
          have hdsep := dropWhile_head_sep _ d t hd
          subst hdsep
          rw [hd] at hsum hrest
          have hlen2 : ((c :: cs).takeWhile (· ≠ '/')).length + (t.length + 1) = (c :: cs).length := by
            rw [← List.length_cons '/' t, ← List.length_append, hsum]
          have htk : 0 < ((c :: cs).takeWhile (· ≠ '/')).length :=
            List.length_pos.mpr hc1
          cases f with
          | zero => simp only [List.length_cons] at hfuel hlen2; omega
          | succ f2 =>
            rw [cleanLoop, if_pos rfl]
            have hlt : t.length < n := by omega
            have hle : t.length ≤ f2 := by omega
            have key := ih t.length hlt t
              (out ++ ['/'] ++ (c :: cs).takeWhile (· ≠ '/')) f2 dotdot rfl
              hle (by simp) hrest
            rw [key]
            conv_rhs => rw [← hsum]
            simp

theorem Join_uploads_plain (name : Path) (h : plainName name = true) :
    Join [uploadsFolder, name] = uploadsFolder ++ '/' :: name := by
  rw [Join_uploads]
  have e : uploadsFolder ++ '/' :: name
      = 'u' :: 'p' :: 'l' :: 'o' :: 'a' :: 'd' :: 's' :: '/' :: name := rfl
  rw [e]
  unfold Clean
  simp only [List.cons_ne_nil, if_false, List.head?_cons, List.length_cons]
  have hdec : (some 'u' = some '/') = False := by simp
  simp only [hdec, decide_False, Bool.false_eq_true, if_false]
  rw [cleanLoop]
  simp [List.takeWhile, List.dropWhile]
  rw [cleanLoop, if_pos rfl]
  rw [cleanLoop_plain name.length name _ _ _ rfl (by omega) (by simp) h]
  simp

theorem client.deleteFile_calls (env : Env) (w : World) (N : Path) :
    (client.deleteFile env w N).2.calls = w.calls ++ [Call.DeleteFile { FileName := N }] := by
  unfold client.deleteFile FileServiceClient.DeleteFile
  cases hr : w.client.Remove (downloadsFolder ++ '/' :: N) <;>
    by_cases hc : env.callFails = true <;> simp only [hr, hc, if_true, if_false] <;>
    cases hs : server.DeleteFile w.server { FileName := N } with
    | mk a b => cases a <;> simp [hs]

theorem Split_ne_nil (l : List Char) : Split l ≠ [] := by
  rw [Split_span]; simp

/-- The name `handleEvent` derives from a path is the part after the last
slash. -/
theorem baseName_spec (P : Path) :
    '/' ∉ baseName P ∧
      ∃ pre : Path, P = pre ++ baseName P ∧ (pre = [] ∨ pre.getLast? = some '/') := by
  induction P with
  | nil => simp [baseName, Split, lastOf]
  | cons c cs ih =>
    obtain ⟨ih1, pre, ih2, ih3⟩ := ih
    have hne := Split_ne_nil cs
    by_cases hc : c = '/'
    · subst hc
      have e : baseName ('/' :: cs) = baseName cs := by
        unfold baseName lastOf
        rw [Split, if_pos rfl]
        cases hs : Split cs with
        | nil => exact absurd hs hne
        | cons x xs => simp [List.getLastD]
      rw [e]
      refine ⟨ih1, '/' :: pre, by rw [List.cons_append, ← ih2], ?_⟩
      right
      rcases ih3 with h | h
      · subst h; rfl
      · cases pre with
        | nil => simp at h
        | cons p ps => simpa using h
    · cases hs : Split cs with
      | nil => exact absurd hs hne
      | cons x xs =>
        cases xs with
        | nil =>
          have e : baseName (c :: cs) = c :: baseName cs := by
            unfold baseName lastOf
            rw [Split, if_neg hc, hs]
            simp [List.getLastD]
          have e2 : baseName cs = cs := by
            have := Split_span cs
            rw [hs] at this
            injection this with h1 h2
            have hd : cs.dropWhile (· ≠ '/') = [] := by
              cases hdw : cs.dropWhile (· ≠ '/') with
              | nil => rfl
              | cons d t => rw [hdw] at h2; exact absurd h2.symm (Split_ne_nil t)
            have := List.takeWhile_append_dropWhile (· ≠ '/') cs
            rw [hd, List.append_nil] at this
            unfold baseName lastOf
            rw [hs]
            change x = cs
            rw [h1, this]
          rw [e, e2]
          rw [e2] at ih1
          refine ⟨by simp [ih1, Ne.symm hc], [], rfl, Or.inl rfl⟩
        | cons y ys =>
          have e : baseName (c :: cs) = baseName cs := by
            unfold baseName lastOf
            rw [Split, if_neg hc, hs]
            simp [List.getLastD]
          rw [e]
          have hpre : pre ≠ [] := by
            intro hp
            subst hp
            simp at ih2
            have := Split_span cs
            rw [hs] at this
            injection this with h1 h2
            -- the base name is all of `cs`, so `cs` holds no slash and splits in one
            have hd : cs.dropWhile (· ≠ '/') = [] := by
              rw [List.dropWhile_eq_nil_iff]
              intro a ha
              have : a ≠ '/' := by
                intro e; subst e; rw [ih2] at ha; exact ih1 ha
              simpa using this
            rw [hd] at h2
            simp at h2
          refine ⟨ih1, c :: pre, by rw [List.cons_append, ← ih2], Or.inr ?_⟩
          rcases ih3 with h | h
          · exact absurd h hpre
          · cases pre with
            | nil => simp at h
            | cons p ps => simpa using h

theorem client.uploadLoop_extends (env : Env) (fuel : Nat) (file : File) (s s1 : SendStream)
    (h : client.uploadLoop env fuel file s = some s1) : ∃ extra, s1.sent = s.sent ++ extra := by
  induction fuel generalizing file s with
  | zero => simp [client.uploadLoop] at h
  | succ fuel ih =>
    unfold client.uploadLoop at h
    split at h
    · simp at h; subst h; exact ⟨[], by simp⟩
    · obtain ⟨extra, he⟩ := ih _ _ h
      rw [client.sendFileData, SendStream.Send_sent] at he
      rw [he]
      exact ⟨_, List.append_assoc _ _ _⟩

/-- Whatever `uploadFile` does, the only remote call it can add is one upload
whose first message is the name. -/
theorem client.uploadFile_calls (env : Env) (w : World) (filePath N : Path) (fuel : Nat)
    (r : Outcome (Option Err) × World) (h : client.uploadFile env w filePath N fuel = some r) :
    r.2.calls = w.calls ∨ ∃ chunks, r.2.calls = w.calls ++ [Call.UploadFile (N :: chunks)] := by
  unfold client.uploadFile at h
  split at h
  · simp at h; subst h; exact Or.inl rfl
  · split at h
    · simp at h; subst h; exact Or.inl rfl
    · by_cases hsf : env.streamFails = true
      · simp [client.createUploadStream, hsf] at h
        subst h; exact Or.inl rfl
      · have hsf2 : env.streamFails = false := by simpa using hsf
        simp only [client.createUploadStream, hsf2, Bool.false_eq_true, if_false] at h
        split at h
        · simp at h
        · rename_i s1 hs1
          simp at h; subst h
          obtain ⟨extra, he⟩ := client.uploadLoop_extends _ _ _ _ _ hs1
          simp [client.sendFileName, SendStream.Send_sent] at he
          exact Or.inr ⟨extra, by simp [client.closeFileStream, he]⟩

/-- The client's `deleteFile` when the call reaches a server that holds a
regular file under the name: it returns, and the server's file is gone. -/
theorem client.deleteFile_removes (env : Env) (w : World) (N : Path) (c : Bytes)
    (hcf : env.callFails = false)
    (hstat : w.server.Stat (Join [uploadsFolder, N]) = .ok (.file c)) :
    (client.deleteFile env w N).1 = .ret () ∧
      (client.deleteFile env w N).2.server.Stat (Join [uploadsFolder, N])
        = .error .notExist := by
  obtain ⟨key, fs1, _, hdel, _, _, hst⟩ := server.DeleteFile_file w.server N c hstat
  have hstub : ∀ w0 : World, w0.server = w.server →
      FileServiceClient.DeleteFile env w0 { FileName := N }
        = (.ok { Message := "File ".toList ++ N ++ " deleted successfully".toList },
           { client := w0.client, server := fs1,
             calls := w0.calls ++ [Call.DeleteFile { FileName := N }] }) := by
    intro w0 hw0
    unfold FileServiceClient.DeleteFile
    simp only [hcf, Bool.false_eq_true, if_false, hw0, hdel]
  unfold client.deleteFile
  cases hrem : w.client.Remove (downloadsFolder ++ '/' :: N) with
  | error e0 =>
    simp only [hrem, hstub w rfl]
    exact ⟨trivial, hst⟩
  | ok fs2 =>
    simp only [hrem, hstub { w with client := fs2 } rfl]
    exact ⟨trivial, hst⟩

/-! ## The claims -/

/-- C1, as stated, fails: for the name `a/b`, absent from a store that has no
directory `uploads/a`, the upload returns nil and yet the server holds no file
under that name, and the download that follows leaves an empty destination
file `out/a/b`, not the five bytes of the source. -/
theorem roundtrip_fails_for_nested_name :
    startWorld.client.Stat "f.txt".toList = .ok (.file "hello".toList) ∧
    startWorld.server.Stat (Join [uploadsFolder, "a/b".toList]) = .error .notExist ∧
    (client.uploadFile reliable startWorld "f.txt".toList "a/b".toList 6).map
        (fun r => (r.1, r.2.server.Stat (Join [uploadsFolder, "a/b".toList])))
      = some (.ret none, .error .notExist) ∧
    ((client.uploadFile reliable startWorld "f.txt".toList "a/b".toList 6).bind
        (fun r => client.downloadFile reliable r.2 "a/b".toList "out".toList 6)).map
        (fun r => (r.1, r.2.client.Stat "out/a/b".toList))
      = some (.ret (), .ok (.file [])) := by
  decide

/-- C1, amended (round trip with overwrite). For every byte sequence `B`, every
remote name `N` for which the server can create `filepath.Join(uploads, N)`,
every destination `D` in which the client can create `D/N`, and every prior
state of the store (whatever was stored under `N` before): when the priming
step of the upload does not fail and the network does not fail, the upload of
a local file with content `B` under `N` returns nil and leaves the server's
file with content exactly `B`, and the download of `N` into `D` that follows
leaves `D/N` with content exactly `B`. Any fuel above the length of `B` is
enough for both loops to finish. -/
theorem upload_download_roundtrip (w : World) (filePath N D : Path) (B : Bytes) (fuel : Nat)
    (hsrc : w.client.Stat filePath = .ok (.file B))
    (hprime : (client.primeMirror w.client filePath N).1 = none)
    (hsrv : ∃ r, w.server.Create (Join [uploadsFolder, N]) = .ok r)
    (hdst : ∃ r, w.client.Create (D ++ '/' :: N) = .ok r)
    (hfuel : B.length < fuel) :
    ∃ w1 w2 : World,
      client.uploadFile reliable w filePath N fuel = some (.ret none, w1) ∧
      w1.server.Stat (Join [uploadsFolder, N]) = .ok (.file B) ∧
      client.downloadFile reliable w1 N D fuel = some (.ret (), w2) ∧
      w2.client.Stat (D ++ '/' :: N) = .ok (.file B) := by
  obtain ⟨rs, hrs⟩ := hsrv
  obtain ⟨rc, hrc⟩ := hdst
  have hrun := client.uploadFile_run reliable w filePath N B fuel hsrc hprime rfl hfuel
  -- the server side of the upload
  obtain ⟨_, hstore, _⟩ := server.UploadFile_stores w.server N (chunksOf fuel B) rs hrs
  rw [chunksOf_join fuel B hfuel] at hstore
  have hstat1 : (client.closeFileStream reliable
        { w with client := (client.primeMirror w.client filePath N).2 }
        { sent := N :: chunksOf fuel B }).server.Stat (Join [uploadsFolder, N])
      = .ok (.file B) := hstore
  -- the download
  obtain ⟨rc1, hrc1⟩ := client.primeMirror_creatable w.client filePath N _ B rc hsrc hrc hprime
  obtain ⟨hnodec, hframec, hwc, htc, hndc⟩ := FS.Create_then _ _ rc1 hrc1
  have hdl := client.downloadLoop_appends rc1.1 (chunksOf fuel B) rc1.2 [] hnodec
  have hdown : ∃ w2 : World,
      client.downloadFile reliable (client.closeFileStream reliable
        { w with client := (client.primeMirror w.client filePath N).2 }
        { sent := N :: chunksOf fuel B }) N D fuel = some (.ret (), w2) ∧
      w2.client = client.downloadLoop rc1.1 (chunksOf fuel B) rc1.2 := by
    unfold client.downloadFile FileServiceClient.DownloadFile server.DownloadFile server.sendFile
    simp only [hstat1, FS.Open_file _ _ _ hstat1, server.sendLoop_reg fuel B _ hfuel]
    simp only [reliable, Bool.false_eq_true, if_false, List.nil_append]
    simp only [client.closeFileStream] at hrc1 ⊢
    rw [hrc1]
    exact ⟨_, rfl, rfl⟩
  obtain ⟨w2, hw2, hw2c⟩ := hdown
  refine ⟨_, w2, hrun, hstat1, hw2, ?_⟩
  rw [hw2c]
  apply FS.Stat_of_frame _ _ _ rc1.1 B hwc htc hndc
  · intro q hq
    rw [hdl.2 q hq, hframec q hq]
  · rw [hdl.1, chunksOf_join fuel B hfuel]
    rfl

/-- Witness for C1: the round trip of `f.txt` under the name `notes.txt`, which
the store already holds with another content. -/
theorem upload_download_roundtrip_witness :
    startWorld.client.Stat "f.txt".toList = .ok (.file "hello".toList) ∧
    startWorld.server.Stat (Join [uploadsFolder, "notes.txt".toList])
      = .ok (.file "old text".toList) ∧
    ∃ w1 w2 : World,
      client.uploadFile reliable startWorld "f.txt".toList "notes.txt".toList 6
        = some (.ret none, w1) ∧
      w1.server.Stat (Join [uploadsFolder, "notes.txt".toList]) = .ok (.file "hello".toList) ∧
      client.downloadFile reliable w1 "notes.txt".toList "out".toList 6 = some (.ret (), w2) ∧
      w2.client.Stat ("out".toList ++ '/' :: "notes.txt".toList) = .ok (.file "hello".toList) :=
  ⟨by decide, by decide,
   upload_download_roundtrip startWorld "f.txt".toList "notes.txt".toList "out".toList
     "hello".toList 6 (by decide) (by decide) ⟨_, rfl⟩ ⟨_, rfl⟩ (by decide)⟩

/-- C2, as stated, fails: for the existing file `f.txt` and the name `x/y`,
with no directory `downloads/x`, the priming step fails, `uploadFile` returns
that error, and nothing is sent: no call is issued and the state is as
before. -/
theorem uploadFile_sends_nothing_when_priming_fails :
    startWorld.client.Stat "f.txt".toList = .ok (.file "hello".toList) ∧
    client.uploadFile reliable startWorld "f.txt".toList "x/y".toList 6
      = some (.ret (some .notExist), startWorld) ∧
    startWorld.calls = [] := by
  decide

/-- C2, amended (upload wire framing). For every existing regular local file
with content `B` and every remote name `N` for which the priming step of
`uploadFile` does not fail, over an upload stream that can be opened and
whatever the calls of `Send` answer: `uploadFile` returns nil, and the stream
it closes was handed exactly one name chunk whose payload is `N`, followed by
`ceil(len(B)/1024)` data chunks, each non-empty and of at most 1024 bytes,
whose concatenation in send order is `B`. Any fuel above the length of `B` is
enough for the loop to finish. -/
theorem uploadFile_wire_framing (env : Env) (w : World) (filePath N : Path) (B : Bytes)
    (fuel : Nat)
    (hsrc : w.client.Stat filePath = .ok (.file B))
    (hprime : (client.primeMirror w.client filePath N).1 = none)
    (hstream : env.streamFails = false)
    (hfuel : B.length < fuel) :
    ∃ (chunks : List Bytes) (w1 : World),
      client.uploadFile env w filePath N fuel = some (.ret none, w1) ∧
      w1.calls = w.calls ++ [Call.UploadFile (N :: chunks)] ∧
      chunks.flatten = B ∧
      chunks.length = (B.length + 1023) / 1024 ∧
      (∀ c ∈ chunks, c ≠ [] ∧ c.length ≤ 1024) := by
  refine ⟨chunksOf fuel B, _, client.uploadFile_run env w filePath N B fuel hsrc hprime
    hstream hfuel, rfl, chunksOf_join fuel B hfuel, chunksOf_length fuel B hfuel,
    chunksOf_bounds fuel B⟩

/-- Witness for C2: the upload of the five bytes of `f.txt` under the name
`notes.txt`. -/
theorem uploadFile_wire_framing_witness :
    startWorld.client.Stat "f.txt".toList = .ok (.file "hello".toList) ∧
    ∃ (chunks : List Bytes) (w1 : World),
      client.uploadFile reliable startWorld "f.txt".toList "notes.txt".toList 6
        = some (.ret none, w1) ∧
      w1.calls = startWorld.calls ++ [Call.UploadFile ("notes.txt".toList :: chunks)] ∧
      chunks.flatten = "hello".toList ∧
      chunks.length = ("hello".toList.length + 1023) / 1024 ∧
      (∀ c ∈ chunks, c ≠ [] ∧ c.length ≤ 1024) :=
  ⟨by decide,
   uploadFile_wire_framing reliable startWorld "f.txt".toList "notes.txt".toList "hello".toList 6
     (by decide) (by decide) rfl (by decide)⟩

/-- C3, as stated, fails: a Create event, and a Write event, on the path
`downloads/notes.txt` that no longer exists performs no upload: `handleEvent`
returns with the state unchanged and no remote call issued. -/
theorem handleEvent_Create_on_vanished_path_uploads_nothing :
    deletedWorld.client.Stat "downloads/notes.txt".toList = .error .notExist ∧
    client.handleEvent reliable deletedWorld
        { Name := "downloads/notes.txt".toList, Op := fsnotify.Create } 6
      = some (.ret (), deletedWorld) ∧
    client.handleEvent reliable deletedWorld
        { Name := "downloads/notes.txt".toList, Op := fsnotify.Write } 6
      = some (.ret (), deletedWorld) ∧
    deletedWorld.calls = [] := by
  decide

/-- C3, amended (watcher upload and delete mapping). For every event on a path
`P`:
(i) when the operation has the Create bit or the Write bit and `P` is an
existing regular file with content `B`, the priming step does not fail and the
upload stream can be opened, `handleEvent` returns after exactly one remote
call, an upload whose messages are the name `baseName P` followed by chunks
that concatenate to `B`, and when no `Send` failed and the server can create
the file, the server holds `B` under `baseName P`; when `os.Stat` of `P`
fails, `handleEvent` returns with nothing changed and no remote call;
(ii) when the operation has the Rename bit without Create and Write and
`os.Stat` reports that `P` does not exist, `handleEvent` is exactly the delete
of `baseName P`: one `DeleteFile` call for that name and no other call, and
when the call reaches a server that holds a regular file under that name, the
file is gone afterwards; when `os.Stat` fails with another error, nothing is
done.
The name `baseName P` holds no slash and is what follows the last slash of
`P`. -/
theorem handleEvent_upload_delete_mapping (env : Env) (w : World) (P : Path) (op fuel : Nat) :
    ((op &&& fsnotify.Create = fsnotify.Create ∨ op &&& fsnotify.Write = fsnotify.Write) →
      (∀ B : Bytes, w.client.Stat P = .ok (.file B) →
        (client.primeMirror w.client P (baseName P)).1 = none →
        env.streamFails = false → B.length < fuel →
        ∃ (chunks : List Bytes) (w1 : World),
          client.handleEvent env w { Name := P, Op := op } fuel = some (.ret (), w1) ∧
          w1.calls = w.calls ++ [Call.UploadFile (baseName P :: chunks)] ∧
          chunks.flatten = B ∧
          w1.client = (client.primeMirror w.client P (baseName P)).2 ∧
          (env.sendFails = [] →
            (∃ r, w.server.Create (Join [uploadsFolder, baseName P]) = .ok r) →
            w1.server.Stat (Join [uploadsFolder, baseName P]) = .ok (.file B))) ∧
      (∀ e : Err, w.client.Stat P = .error e →
        client.handleEvent env w { Name := P, Op := op } fuel = some (.ret (), w))) ∧
    (op &&& fsnotify.Create ≠ fsnotify.Create → op &&& fsnotify.Write ≠ fsnotify.Write →
      op &&& fsnotify.Rename = fsnotify.Rename →
      (w.client.Stat P = .error .notExist →
        client.handleEvent env w { Name := P, Op := op } fuel
            = some (client.deleteFile env w (baseName P)) ∧
        (client.deleteFile env w (baseName P)).2.calls
            = w.calls ++ [Call.DeleteFile { FileName := baseName P }] ∧
        (∀ c : Bytes, env.callFails = false →
          w.server.Stat (Join [uploadsFolder, baseName P]) = .ok (.file c) →
          (client.deleteFile env w (baseName P)).1 = .ret () ∧
          (client.deleteFile env w (baseName P)).2.server.Stat
              (Join [uploadsFolder, baseName P]) = .error .notExist)) ∧
      (∀ e : Err, w.client.Stat P = .error e → IsNotExist e = false →
        client.handleEvent env w { Name := P, Op := op } fuel = some (.ret (), w))) ∧
    ('/' ∉ baseName P ∧
      ∃ pre : Path, P = pre ++ baseName P ∧ (pre = [] ∨ pre.getLast? = some '/')) := by
  have heq : (op &&& fsnotify.Create = fsnotify.Create ∨ op &&& fsnotify.Write = fsnotify.Write) →
      client.handleEvent env w { Name := P, Op := op } fuel
        = (client.uploadFile env w P (baseName P) fuel).map client.discard := by
    intro hop
    unfold client.handleEvent baseName
    rcases hop with h | h
    · simp only [h, if_true]
    · by_cases hc : op &&& fsnotify.Create = fsnotify.Create
      · simp only [hc, if_true]
      · simp only [hc, h, if_true, if_false]
  refine ⟨?_, ?_, baseName_spec P⟩
  · intro hop
    refine ⟨?_, ?_⟩
    · intro B hsrc hprime hstream hfuel
      have hrun := client.uploadFile_run env w P (baseName P) B fuel hsrc hprime hstream hfuel
      refine ⟨chunksOf fuel B,
        client.closeFileStream env
          { w with client := (client.primeMirror w.client P (baseName P)).2 }
          { sent := baseName P :: chunksOf fuel B },
        ?_, rfl, chunksOf_join fuel B hfuel, rfl, ?_⟩
      · rw [heq hop, hrun]; rfl
      · intro hsf hcre
        obtain ⟨r, hr⟩ := hcre
        obtain ⟨_, hstore, _⟩ :=
          server.UploadFile_stores w.server (baseName P) (chunksOf fuel B) r hr
        rw [chunksOf_join fuel B hfuel] at hstore
        simp only [client.closeFileStream, hsf]
        exact hstore
    · intro e he
      rw [heq hop]
      simp [client.uploadFile, he, client.discard]
  · intro h1 h2 h3
    refine ⟨?_, ?_⟩
    · intro h4
      refine ⟨?_, client.deleteFile_calls env w (baseName P), ?_⟩
      · unfold client.handleEvent baseName
        simp only [h1, h2, h3, h4, if_true, if_false, IsNotExist]
      · intro c hcf hstat
        exact client.deleteFile_removes env w (baseName P) c hcf hstat
    · intro e he hne
      unfold client.handleEvent
      simp only [h1, h2, h3, he, hne, if_true, if_false, Bool.false_eq_true]

/-- Witness for C3: a Write event on the existing `f.txt`, and a Rename event
on the vanished `downloads/notes.txt` with the server still holding
`notes.txt`. -/
theorem handleEvent_upload_delete_mapping_witness :
    startWorld.client.Stat "f.txt".toList = .ok (.file "hello".toList) ∧
    (∃ (chunks : List Bytes) (w1 : World),
      client.handleEvent reliable startWorld { Name := "f.txt".toList, Op := 2 } 6
        = some (.ret (), w1) ∧
      w1.calls = startWorld.calls ++ [Call.UploadFile (baseName "f.txt".toList :: chunks)] ∧
      chunks.flatten = "hello".toList ∧
      w1.client = (client.primeMirror startWorld.client "f.txt".toList
                    (baseName "f.txt".toList)).2 ∧
      (reliable.sendFails = [] →
        (∃ r, startWorld.server.Create (Join [uploadsFolder, baseName "f.txt".toList]) = .ok r) →
        w1.server.Stat (Join [uploadsFolder, baseName "f.txt".toList])
          = .ok (.file "hello".toList))) ∧
    deletedWorld.client.Stat "downloads/notes.txt".toList = .error .notExist ∧
    client.handleEvent reliable deletedWorld { Name := "downloads/notes.txt".toList, Op := 8 } 6
      = some (client.deleteFile reliable deletedWorld (baseName "downloads/notes.txt".toList)) ∧
    (client.deleteFile reliable deletedWorld (baseName "downloads/notes.txt".toList)).2.server.Stat
        (Join [uploadsFolder, baseName "downloads/notes.txt".toList]) = .error .notExist :=
  ⟨by decide,
   ((handleEvent_upload_delete_mapping reliable startWorld "f.txt".toList 2 6).1
      (Or.inr (by decide))).1 "hello".toList (by decide) (by decide) rfl (by decide),
   by decide,
   (((handleEvent_upload_delete_mapping reliable deletedWorld "downloads/notes.txt".toList 8 6).2.1
      (by decide) (by decide) (by decide)).1 (by decide)).1,
   ((((handleEvent_upload_delete_mapping reliable deletedWorld "downloads/notes.txt".toList 8
      6).2.1 (by decide) (by decide) (by decide)).1 (by decide)).2.2
      "old text".toList rfl (by decide)).2⟩

/-- C4 (local deletion is propagated): evaluation of the code. An event whose
operation is Remove matches no case of `handleEvent`: for every path, network
and state the method returns with the state unchanged and no remote call. -/
theorem handleEvent_Remove_does_nothing (env : Env) (w : World) (P : Path) (fuel : Nat) :
    client.handleEvent env w { Name := P, Op := fsnotify.Remove } fuel = some (.ret (), w) := by
  unfold client.handleEvent
  have h1 : ¬ (fsnotify.Remove &&& fsnotify.Create = fsnotify.Create) := by decide
  have h2 : ¬ (fsnotify.Remove &&& fsnotify.Write = fsnotify.Write) := by decide
  have h3 : ¬ (fsnotify.Remove &&& fsnotify.Rename = fsnotify.Rename) := by decide
  simp only [h1, h2, h3, if_false]

/-- C5 (watcher rename mapping): evaluation of the code. On the Rename event
for the existing path `downloads/b.txt`, `handleEvent` issues one `RenameFile`
call whose old name is empty and whose new name is the whole event path
`downloads/b.txt`, not the base name `b.txt`; the server refuses the call and
the client panics on the absent response. -/
theorem handleEvent_Rename_sends_event_path :
    client.handleEvent reliable renamedWorld
        { Name := "downloads/b.txt".toList, Op := fsnotify.Rename } 6
      = some (.panic,
          { renamedWorld with
            calls := [Call.RenameFile
              { OldFileName := [], NewFileName := "downloads/b.txt".toList }] }) ∧
    baseName "downloads/b.txt".toList = "b.txt".toList := by
  decide

/-- C6 (download of a missing remote file): evaluation of the code. For the
name `ghost.txt`, absent from the uploads root, the handler returns an error
and sends no chunk, and yet the client, which had no `out/ghost.txt`, is left
with an empty file `out/ghost.txt`. -/
theorem downloadFile_missing_leaves_empty_file :
    server.DownloadFile reliable storeFS { FileName := "ghost.txt".toList } 6
      = some (some .notExist, { sent := [] }) ∧
    startWorld.client.Stat "out/ghost.txt".toList = .error .notExist ∧
    (client.downloadFile reliable startWorld "ghost.txt".toList "out".toList 6).map
        (fun r => (r.1, r.2.client.Stat "out/ghost.txt".toList))
      = some (.ret (), .ok (.file [])) := by
  decide

/-- C7, as stated, fails: no file named `""` exists in the uploads root, yet on
an empty store the delete handler called with the empty name returns the
success message and removes the uploads directory itself, and on a store that
holds a file it returns the not-empty error, which is not a not-exist error;
for the name `notes.txt/x`, which names no file either, it returns the
not-a-directory error, for which `os.IsNotExist` is false. -/
theorem DeleteFile_without_file_not_always_NotFound :
    server.DeleteFile [(uploadsFolder, .dir)] { FileName := [] }
      = (.ok { Message := "File  deleted successfully".toList }, []) ∧
    server.DeleteFile storeFS { FileName := [] } = (.error .notEmpty, storeFS) ∧
    storeFS.lookup "uploads/notes.txt/x".toList = none ∧
    server.DeleteFile storeFS { FileName := "notes.txt/x".toList } = (.error .notDir, storeFS) ∧
    IsNotExist .notEmpty = false ∧ IsNotExist .notDir = false := by
  decide

/-- C7, amended (delete is not idempotent). For every request name `N`: when
`os.Stat` of `filepath.Join(uploads, N)` fails, with the not-exist error when
nothing exists under that path, the `DeleteFile` handler returns that same
error and no response and leaves the store as it was; when a regular file
exists under that path, the handler returns the success message, afterwards
nothing exists under the file's path while every other entry is as before,
and a second `DeleteFile` of `N` returns the not-exist error and changes
nothing. -/
theorem DeleteFile_not_idempotent (fs : FS) (N : Path) :
    (∀ e : Err, fs.Stat (Join [uploadsFolder, N]) = .error e →
      server.DeleteFile fs { FileName := N } = (.error e, fs)) ∧
    (∀ c : Bytes, fs.Stat (Join [uploadsFolder, N]) = .ok (.file c) →
      ∃ (key : Path) (fs1 : FS),
        fs.walk (Join [uploadsFolder, N]) = .ok key ∧
        server.DeleteFile fs { FileName := N }
          = (.ok { Message := "File ".toList ++ N ++ " deleted successfully".toList }, fs1) ∧
        fs1.node key = none ∧
        (∀ q : Path, q ≠ key → fs1.node q = fs.node q) ∧
        fs1.Stat (Join [uploadsFolder, N]) = .error .notExist ∧
        server.DeleteFile fs1 { FileName := N } = (.error .notExist, fs1)) := by
  refine ⟨fun e h => server.DeleteFile_error fs N e h, ?_⟩
  intro c h
  obtain ⟨key, fs1, h1, h2, h3, h4, h5⟩ := server.DeleteFile_file fs N c h
  exact ⟨key, fs1, h1, h2, h3, h4, h5, server.DeleteFile_error fs1 N _ h5⟩

/-- Witness for C7: the absent name `ghost.txt` and the stored name
`notes.txt`. -/
theorem DeleteFile_not_idempotent_witness :
    storeFS.Stat (Join [uploadsFolder, "ghost.txt".toList]) = .error .notExist ∧
    server.DeleteFile storeFS { FileName := "ghost.txt".toList } = (.error .notExist, storeFS) ∧
    storeFS.Stat (Join [uploadsFolder, "notes.txt".toList]) = .ok (.file "old text".toList) ∧
    ∃ (key : Path) (fs1 : FS),
      storeFS.walk (Join [uploadsFolder, "notes.txt".toList]) = .ok key ∧
      server.DeleteFile storeFS { FileName := "notes.txt".toList }
        = (.ok { Message := "File ".toList ++ "notes.txt".toList
                              ++ " deleted successfully".toList }, fs1) ∧
      fs1.node key = none ∧
      (∀ q : Path, q ≠ key → fs1.node q = storeFS.node q) ∧
      fs1.Stat (Join [uploadsFolder, "notes.txt".toList]) = .error .notExist ∧
      server.DeleteFile fs1 { FileName := "notes.txt".toList } = (.error .notExist, fs1) :=
  ⟨by decide,
   (DeleteFile_not_idempotent storeFS "ghost.txt".toList).1 .notExist (by decide),
   by decide,
   (DeleteFile_not_idempotent storeFS "notes.txt".toList).2 "old text".toList (by decide)⟩

/-- C8 (upload errors are propagated): evaluation of the code. When the `Send`
of the name chunk fails, and also when the `Send` of a data chunk fails,
`uploadFile` returns nil; the server holds no file of that name afterwards.
When the upload stream cannot be created, `uploadFile` does not return an
error either: it panics on the nil stream. -/
theorem uploadFile_returns_nil_after_send_failure :
    (client.uploadFile { streamFails := false, sendFails := [true], callFails := false }
        startWorld "f.txt".toList "new.txt".toList 6).map
        (fun r => (r.1, r.2.server.Stat "uploads/new.txt".toList))
      = some (.ret none, .error .notExist) ∧
    (client.uploadFile { streamFails := false, sendFails := [false, true], callFails := false }
        startWorld "f.txt".toList "new.txt".toList 6).map (fun r => r.1)
      = some (.ret none) ∧
    (client.uploadFile { streamFails := true, sendFails := [], callFails := false }
        startWorld "f.txt".toList "new.txt".toList 6).map (fun r => r.1)
      = some .panic := by
  decide

/-- C9 (a failed remote call never crashes the client): evaluation of the
code. Whenever the `DeleteFile` call cannot reach the server, for every state
and name, `deleteFile` panics; it also panics when the server answers that the
name is absent; and `renameFile` panics when the server refuses the rename. -/
theorem deleteFile_renameFile_panic_on_error :
    (∀ (w : World) (N : Path),
      (client.deleteFile { streamFails := false, sendFails := [], callFails := true } w N).1
        = Outcome.panic) ∧
    (client.deleteFile reliable startWorld "ghost.txt".toList).1 = Outcome.panic ∧
    (client.renameFile reliable renamedWorld "b.txt".toList "c.txt".toList).1
      = Outcome.panic := by
  refine ⟨?_, by decide, by decide⟩
  intro w N
  simp [client.deleteFile, FileServiceClient.DeleteFile]

/-- C10, as stated, fails: the path the handlers operate on is the uploads
root itself for the names `""` and `"."`, and lies outside it for
`"../secret.txt"`; on an empty store the delete handler called with the empty
name removes the uploads directory. -/
theorem Join_uploads_not_scoped :
    Join [uploadsFolder, []] = uploadsFolder ∧
    Join [uploadsFolder, ".".toList] = uploadsFolder ∧
    Join [uploadsFolder, "../secret.txt".toList] = "secret.txt".toList ∧
    strictlyInside uploadsFolder (Join [uploadsFolder, []]) = false ∧
    strictlyInside uploadsFolder (Join [uploadsFolder, "../secret.txt".toList]) = false ∧
    (server.DeleteFile [(uploadsFolder, .dir)] { FileName := [] }).2 = [] := by
  decide

/-- C10, amended (server operations are scoped under the uploads root for
plain names). For every file name whose components between slashes are all
non-empty and none of which is `.` or `..`, the path the handlers operate on,
`filepath.Join(uploadsFolder, name)`, is `uploads/name`, an entry strictly
inside the uploads directory. -/
theorem Join_uploads_scoped (name : Path) (h : plainName name = true) :
    Join [uploadsFolder, name] = uploadsFolder ++ '/' :: name ∧
      strictlyInside uploadsFolder (Join [uploadsFolder, name]) = true := by
  have e := Join_uploads_plain name h
  refine ⟨e, ?_⟩
  rw [e]
  unfold strictlyInside
  have hp : (uploadsFolder ++ ['/']).isPrefixOf (uploadsFolder ++ '/' :: name) = true := by
    rw [List.isPrefixOf_iff_prefix]
    exact ⟨name, by simp⟩
  have hd : (uploadsFolder ++ '/' :: name).drop (uploadsFolder.length + 1) = name := by
    have : uploadsFolder ++ '/' :: name = (uploadsFolder ++ ['/']) ++ name := by simp
    rw [this, List.drop_left' (by simp)]
  rw [hp, hd, h]
  rfl

/-- Witness for C10: the name `a/notes.txt`. -/
theorem Join_uploads_scoped_witness :
    Join [uploadsFolder, "a/notes.txt".toList] = uploadsFolder ++ '/' :: "a/notes.txt".toList ∧
      strictlyInside uploadsFolder (Join [uploadsFolder, "a/notes.txt".toList]) = true :=
  Join_uploads_scoped "a/notes.txt".toList (by decide)

/-- C11, as stated, fails: for the existing file `f.txt` and the name `x/y`,
missing from a mirror that has no directory `downloads/x`, the priming step
returns an error, `downloads/x/y` still does not exist afterwards, and
`uploadFile` returns that error instead of going on to the upload. -/
theorem primeMirror_fails_for_nested_name :
    homeFS.Stat "f.txt".toList = .ok (.file "hello".toList) ∧
    homeFS.Stat "downloads/x/y".toList = .error .notExist ∧
    client.primeMirror homeFS "f.txt".toList "x/y".toList = (some .notExist, homeFS) ∧
    (client.primeMirror homeFS "f.txt".toList "x/y".toList).2.Stat "downloads/x/y".toList
      = .error .notExist ∧
    (client.uploadFile reliable startWorld "f.txt".toList "x/y".toList 6).map
        (fun r => (r.1, r.2.calls))
      = some (.ret (some .notExist), []) := by
  decide

/-- C11, amended (local mirror priming). For every existing regular source
file with content `B` and every target name `N`, when `uploadFile` is called
over an upload stream that can be opened:
if `os.Stat` reports that `downloads/N` does not exist and `os.Create` can
create it, then after the priming step `downloads/N` exists with content
exactly `B`, under a path that named nothing before, and every other entry is
as before;
if `os.Stat` reports that it does not exist and `os.Create` fails, the priming
step returns that error with nothing changed and `uploadFile` returns the
error without uploading;
if `downloads/N` already exists, or `os.Stat` fails with an error other than
not-exist, the priming step leaves the whole file system as it was.
In every case but the failed `os.Create` the upload proceeds: `uploadFile`
returns nil with the primed file system, having closed one upload stream whose
first message is `N`. Any fuel above the length of `B` is enough for the
upload loop to finish. -/
theorem uploadFile_primes_mirror (env : Env) (w : World) (filePath N : Path) (B : Bytes)
    (fuel : Nat)
    (hsrc : w.client.Stat filePath = .ok (.file B))
    (hstream : env.streamFails = false)
    (hfuel : B.length < fuel) :
    (w.client.Stat (downloadsFolder ++ '/' :: N) = .error .notExist →
      (∀ r : Path × FS, w.client.Create (downloadsFolder ++ '/' :: N) = .ok r →
        w.client.node r.1 = none ∧
        ∃ fs1 : FS,
          client.primeMirror w.client filePath N = (none, fs1) ∧
          fs1.Stat (downloadsFolder ++ '/' :: N) = .ok (.file B) ∧
          (∀ q : Path, q ≠ r.1 → fs1.node q = w.client.node q) ∧
          ∃ (w1 : World) (chunks : List Bytes),
            client.uploadFile env w filePath N fuel = some (.ret none, w1) ∧
            w1.client = fs1 ∧
            w1.calls = w.calls ++ [Call.UploadFile (N :: chunks)]) ∧
      (∀ e : Err, w.client.Create (downloadsFolder ++ '/' :: N) = .error e →
        client.primeMirror w.client filePath N = (some e, w.client) ∧
        client.uploadFile env w filePath N fuel = some (.ret (some e), w))) ∧
    (∀ n : Node, w.client.Stat (downloadsFolder ++ '/' :: N) = .ok n →
      client.primeMirror w.client filePath N = (none, w.client) ∧
      ∃ (w1 : World) (chunks : List Bytes),
        client.uploadFile env w filePath N fuel = some (.ret none, w1) ∧
        w1.client = w.client ∧
        w1.calls = w.calls ++ [Call.UploadFile (N :: chunks)]) ∧
    (∀ e : Err, w.client.Stat (downloadsFolder ++ '/' :: N) = .error e →
      IsNotExist e = false →
      client.primeMirror w.client filePath N = (none, w.client) ∧
      ∃ (w1 : World) (chunks : List Bytes),
        client.uploadFile env w filePath N fuel = some (.ret none, w1) ∧
        w1.client = w.client ∧
        w1.calls = w.calls ++ [Call.UploadFile (N :: chunks)]) := by
  have skip : (∀ e : Err, w.client.Stat (downloadsFolder ++ '/' :: N) = .error e →
        IsNotExist e = false) →
      client.primeMirror w.client filePath N = (none, w.client) ∧
      ∃ (w1 : World) (chunks : List Bytes),
        client.uploadFile env w filePath N fuel = some (.ret none, w1) ∧
        w1.client = w.client ∧
        w1.calls = w.calls ++ [Call.UploadFile (N :: chunks)] := by
    intro hskip
    have hpm := client.primeMirror_skipped w.client filePath N hskip
    have hrun := client.uploadFile_run env w filePath N B fuel hsrc (by rw [hpm]) hstream hfuel
    refine ⟨hpm, _, chunksOf fuel B, hrun, ?_, rfl⟩
    simp [client.closeFileStream, hpm]
  refine ⟨?_, ?_, ?_⟩
  · intro habs
    constructor
    · intro r hc
      obtain ⟨hnone, hpm⟩ := client.primeMirror_fresh w.client filePath N B r hsrc habs hc
      obtain ⟨k, hw, ht, hnd, hr⟩ := FS.Create_ok _ _ r hc
      subst hr
      have hrun := client.uploadFile_run env w filePath N B fuel hsrc (by rw [hpm]) hstream hfuel
      refine ⟨hnone, _, hpm, FS.Stat_put_created w.client _ k B hw ht hnd,
        fun q hq => FS.node_put_other w.client k q _ hq, _, chunksOf fuel B, hrun, ?_, rfl⟩
      simp [client.closeFileStream, hpm]
    · intro e hc
      have hpm := client.primeMirror_refused w.client filePath N B e hsrc habs hc
      refine ⟨hpm, ?_⟩
      unfold client.uploadFile
      simp only [hsrc, hpm]
  · intro n hn
    exact skip (by intro e he; rw [hn] at he; simp at he)
  · intro e he hne
    exact skip (by
      intro e2 he2
      rw [he] at he2
      injection he2 with he2
      rw [← he2]; exact hne)

/-- Witness for C11: the name `n.txt`, missing from the mirror and creatable;
the name `x/y`, missing and not creatable; and the name `notes.txt`, which the
mirror already holds with another content. -/
theorem uploadFile_primes_mirror_witness :
    homeFS.Stat "f.txt".toList = .ok (.file "hello".toList) ∧
    homeFS.Stat (downloadsFolder ++ '/' :: "n.txt".toList) = .error .notExist ∧
    (∃ fs1 : FS,
      client.primeMirror startWorld.client "f.txt".toList "n.txt".toList = (none, fs1) ∧
      fs1.Stat (downloadsFolder ++ '/' :: "n.txt".toList) = .ok (.file "hello".toList) ∧
      (∀ q : Path, q ≠ "downloads/n.txt".toList → fs1.node q = startWorld.client.node q) ∧
      ∃ (w1 : World) (chunks : List Bytes),
        client.uploadFile reliable startWorld "f.txt".toList "n.txt".toList 6
          = some (.ret none, w1) ∧
        w1.client = fs1 ∧
        w1.calls = startWorld.calls ++ [Call.UploadFile ("n.txt".toList :: chunks)]) ∧
    client.uploadFile reliable startWorld "f.txt".toList "x/y".toList 6
      = some (.ret (some .notExist), startWorld) ∧
    mirroredFS.Stat (downloadsFolder ++ '/' :: "notes.txt".toList)
      = .ok (.file "stale".toList) ∧
    client.primeMirror mirroredFS "f.txt".toList "notes.txt".toList = (none, mirroredFS) :=
  ⟨by decide, by decide,
   (((uploadFile_primes_mirror reliable startWorld "f.txt".toList "n.txt".toList "hello".toList 6
      (by decide) rfl (by decide)).1 (by decide)).1
      ("downloads/n.txt".toList, homeFS.put "downloads/n.txt".toList (.file [])) (by decide)).2,
   (((uploadFile_primes_mirror reliable startWorld "f.txt".toList "x/y".toList "hello".toList 6
      (by decide) rfl (by decide)).1 (by decide)).2 .notExist (by decide)).2,
   by decide,
   ((uploadFile_primes_mirror reliable { startWorld with client := mirroredFS }
      "f.txt".toList "notes.txt".toList "hello".toList 6
      (by decide) rfl (by decide)).2.1 (.file "stale".toList) (by decide)).1⟩

end FileService
